import Mathlib

/-!
Verification of the memory-management core of the whu-oslab teaching kernel.

The development embeds, as executable Lean functions, the physical frame
allocator (`pmem.c`) and the Sv39 page-table code (`vmem.c` / `kvm.c` /
`uvm.c`) of two lab variants of the repository:

* namespace `Week3`  — the `week3/whu-oslab-lab1` variant;
* namespace `SC`     — the `系统调用` (syscall lab) variant.

Physical memory is modelled at 64-bit-word granularity: `Mem` maps a frame
base address and a word index (0 ≤ i < 512) to the word stored there.  A
page-table page holds its 512 PTEs at indices 0..511, exactly as in the C
code (`pte_t pgtbl[512]`).  The intrusive free lists of the allocators are
represented by the list of the free frames' base addresses, in list order;
the in-frame `next` pointers that the C code stores into word 0 of a freed
frame are mirrored into `Mem` on every free.  A C function that can
`panic`/`assert` is embedded with result type `Option _`, `none` being the
panic.  All machine arithmetic is on `Nat`; the C shift/mask macros are
rendered with the equivalent division/multiplication/remainder forms.
-/

/-- Physical memory at word granularity: frame base address → word index → value. -/
abbrev Mem : Type := Nat → Nat → Nat

/-- Store word `v` at index `idx` of the frame based at `pa`. -/
def Mem.write (m : Mem) (pa idx v : Nat) : Mem :=
  fun a i => if a = pa ∧ i = idx then v else m a i

/-- `memset` of one whole frame: every word of the frame at `pa` becomes `v`. -/
def Mem.fill (m : Mem) (pa v : Nat) : Mem :=
  fun a i => if a = pa then v else m a i

/-- `memmove(dst, src, PGSIZE)`: the frame at `dst` becomes a copy of the frame at `src`. -/
def Mem.copyPage (m : Mem) (dst src : Nat) : Mem :=
  fun a i => if a = dst then m src i else m a i

/-- Address of the head frame of a free list (`NULL` = 0 when empty);
used to mirror the intrusive `next` pointers into memory. -/
def headAddr : List Nat → Nat
  | [] => 0
  | a :: _ => a

/-- The word a frame is filled with by the poison `memset(pa, 0xaa, PGSIZE)`
of the week3 `pmem_free` (eight 0xaa bytes). -/
def POISON : Nat := 0xaaaaaaaaaaaaaaaa

/-- `VA_TO_VPN(va, level) = (va >> (12 + 9*level)) & 0x1FF`. -/
def vpn (va level : Nat) : Nat := va / 2 ^ (12 + 9 * level) % 512

/-- `PA_TO_PTE(pa) = (pa >> 12) << 10`. -/
def paToPte (pa : Nat) : Nat := pa / 4096 * 1024

/-- `PTE_TO_PA(pte) = (pte >> 10) << 12`. -/
def pteToPa (pte : Nat) : Nat := pte / 1024 * 4096

/-- `PTE_FLAGS(pte) = pte & 0x3FF`. -/
def pteFlags (pte : Nat) : Nat := pte % 1024

/-- `pte & PTE_V` as a Bool: bit 0 of the entry. -/
def pteValid (pte : Nat) : Bool := pte % 2 = 1

/-- `pte & (PTE_R|PTE_W|PTE_X)` is zero: bits 1..3 of the entry are clear. -/
def pteNoRWX (pte : Nat) : Bool := pte % 16 / 2 = 0

/-- `pte & PTE_U` as a Bool: bit 4 of the entry. -/
def pteUser (pte : Nat) : Bool := pte / 16 % 2 = 1

section BitBridges

/-- Disjoint-bit `or` is addition: low part below `2^k`, high part a multiple of `2^k`. -/
theorem lor_eq_add_pow {k a b : Nat} (ha : a % 2 ^ k = 0) (hb : b < 2 ^ k) :
    a ||| b = a + b := by
  have h := Nat.mul_add_lt_is_or (b := b) (i := k) hb (a / 2 ^ k)
  have ha' : 2 ^ k * (a / 2 ^ k) = a := by
    have := Nat.div_add_mod a (2 ^ k)
    omega
  rw [ha'] at h
  omega

/-- Specialisation to the 10-bit flag field of a PTE. -/
theorem lor_flags_eq_add {a b : Nat} (ha : a % 1024 = 0) (hb : b < 1024) :
    a ||| b = a + b :=
  lor_eq_add_pow (k := 10) ha hb

/-- `x | PTE_V` is `x + 1` for even `x`. -/
theorem lor_one_eq_add {x : Nat} (hx : x % 2 = 0) : x ||| 1 = x + 1 :=
  lor_eq_add_pow (k := 1) hx (by norm_num)

theorem paToPte_mod_1024 (pa : Nat) : paToPte pa % 1024 = 0 := by
  simp [paToPte, Nat.mul_mod_left]

/-- Round trip through leaf-PTE construction: extracting the physical address
of `PA_TO_PTE(pa) | fl` with a 10-bit flag field recovers a page-aligned `pa`. -/
theorem pteToPa_construct {pa fl : Nat} (hpa : pa % 4096 = 0) (hfl : fl < 1024) :
    pteToPa (paToPte pa ||| fl) = pa := by
  rw [lor_flags_eq_add (paToPte_mod_1024 pa) hfl]
  unfold paToPte pteToPa
  have h1 : (pa / 4096 * 1024 + fl) / 1024 = pa / 4096 := by omega
  rw [h1]
  omega

/-- The flag field of a constructed PTE. -/
theorem pteFlags_construct {pa fl : Nat} (hfl : fl < 1024) :
    pteFlags (paToPte pa ||| fl) = fl := by
  rw [lor_flags_eq_add (paToPte_mod_1024 pa) hfl]
  unfold paToPte pteFlags
  omega

theorem construct_mod_2 {pa fl : Nat} (hfl : fl < 1024) :
    (paToPte pa ||| fl) % 2 = fl % 2 := by
  rw [lor_flags_eq_add (paToPte_mod_1024 pa) hfl]
  unfold paToPte
  omega

theorem construct_mod_16 {pa fl : Nat} (hfl : fl < 1024) :
    (paToPte pa ||| fl) % 16 = fl % 16 := by
  rw [lor_flags_eq_add (paToPte_mod_1024 pa) hfl]
  unfold paToPte
  omega

theorem construct_div16_mod_2 {pa fl : Nat} (hfl : fl < 1024) :
    (paToPte pa ||| fl) / 16 % 2 = fl / 16 % 2 := by
  rw [lor_flags_eq_add (paToPte_mod_1024 pa) hfl]
  unfold paToPte
  omega

/-- `pteToPa` always yields a page-aligned address. -/
theorem pteToPa_aligned (pte : Nat) : pteToPa pte % 4096 = 0 := by
  simp [pteToPa, Nat.mul_mod_left]

/-- A permission word made only of bits 1..5 passes the week3
`perm & ~(PTE_R|PTE_W|PTE_X|PTE_U|PTE_G)` check (`~` on a 32-bit int). -/
theorem perm_mask_ok {perm : Nat} (h62 : perm ≤ 62) (hev : perm % 2 = 0) :
    perm &&& 4294967233 = 0 := by
  apply Nat.eq_of_testBit_eq
  intro i
  simp only [Nat.testBit_and, Nat.zero_testBit]
  rcases Nat.lt_or_ge i 6 with hi | hi
  · interval_cases i
    · have : perm.testBit 0 = false := by
        simp [Nat.testBit_to_div_mod]
        omega
      simp [this]
    · have : Nat.testBit 4294967233 1 = false := by decide
      simp [this]
    · have : Nat.testBit 4294967233 2 = false := by decide
      simp [this]
    · have : Nat.testBit 4294967233 3 = false := by decide
      simp [this]
    · have : Nat.testBit 4294967233 4 = false := by decide
      simp [this]
    · have : Nat.testBit 4294967233 5 = false := by decide
      simp [this]
  · have : perm.testBit i = false := by
      apply Nat.testBit_lt_two_pow
      calc perm ≤ 62 := h62
        _ < 2 ^ 6 := by norm_num
        _ ≤ 2 ^ i := Nat.pow_le_pow_right (by norm_num) hi
    simp [this]

/-- The VPN fields ignore the in-page offset. -/
theorem vpn_add_off {va off : Nat} (hva : va % 4096 = 0) (hoff : off < 4096)
    (l : Nat) : vpn (va + off) l = vpn va l := by
  unfold vpn
  rw [Nat.pow_add, ← Nat.div_div_eq_div_mul, ← Nat.div_div_eq_div_mul]
  have h12 : (2 : Nat) ^ 12 = 4096 := by norm_num
  rw [h12]
  have : (va + off) / 4096 = va / 4096 := by omega
  rw [this]

theorem vpn_lt_512 (va l : Nat) : vpn va l < 512 :=
  Nat.mod_lt _ (by norm_num)

end BitBridges

namespace Week3

/-- `VA_MAX = 0x7FFFFFFFFF` of the week3 `memlayout.h` (2^39 − 1). -/
def VA_MAX : Nat := 0x7FFFFFFFFF

/-- `KERNEL_PAGES` of the week3 `memlayout.h`. -/
def KERNEL_PAGES : Nat := 1024

/-- The global `kmem` of the week3 `pmem.c` plus physical memory: the two
intrusive free lists are carried as lists of frame base addresses, together
with the `kernel_pages_used`/`user_pages_used` counters. -/
structure St where
  mem : Mem
  kfree : List Nat
  ufree : List Nat
  kused : Nat
  uused : Nat

/-- `pmem_alloc(in_kernel)` of the week3 `pmem.c`: pop the head of the chosen
free list and bump the used counter; an empty list yields a `NULL` return
(after a log line for the kernel region) — no panic, and no zero-fill. -/
def pmem_alloc (st : St) (in_kernel : Bool) : Option Nat × St :=
  if in_kernel then
    match st.kfree with
    | [] => (none, st)
    | r :: rest => (some r, { st with kfree := rest, kused := st.kused + 1 })
  else
    match st.ufree with
    | [] => (none, st)
    | r :: rest => (some r, { st with ufree := rest, uused := st.uused + 1 })

/-- `pmem_free(pa, in_kernel)` of the week3 `pmem.c`: the validity checks only
print (the panics are commented out), so every call proceeds: the frame is
filled with the poison byte pattern, its word 0 receives the old list head
(the intrusive `r->next = freelist` store), and it is pushed on the chosen
list; the used counter is decremented (`Nat` truncated subtraction). -/
def pmem_free (st : St) (pa : Nat) (in_kernel : Bool) : St :=
  let m1 := Mem.fill st.mem pa POISON
  if in_kernel then
    { st with mem := Mem.write m1 pa 0 (headAddr st.kfree),
              kfree := pa :: st.kfree, kused := st.kused - 1 }
  else
    { st with mem := Mem.write m1 pa 0 (headAddr st.ufree),
              ufree := pa :: st.ufree, uused := st.uused - 1 }

/-- One iteration of the level loop of the week3 `vm_getpte`: examine the
entry of `tbl` at `vpn va level`; if it is valid, descend to `PTE_TO_PA` of
it; otherwise, when `alloc` is set, grab a kernel frame (`NULL` result fails),
zero it and install it as `PA_TO_PTE(pa) | PTE_V | PTE_G`.  Returns the
next-level table base (`none` = the C `return NULL`) and the new state. -/
def getpteStep (st : St) (tbl va level : Nat) (alloc : Bool) :
    Option Nat × St :=
  let pte := st.mem tbl (vpn va level)
  if pte % 2 = 1 then
    (some (pteToPa pte), st)
  else if ¬ alloc then
    (none, st)
  else
    match pmem_alloc st true with
    | (none, st1) => (none, st1)
    | (some pa, st1) =>
      if pa = 0 then (none, st1)
      else
        let m1 := Mem.fill st1.mem pa 0
        let w := paToPte pa ||| 1 ||| 32
        (some (pteToPa w), { st1 with mem := Mem.write m1 tbl (vpn va level) w })

/-- `vm_getpte(pgtbl, va, alloc)` of the week3 `vmem.c` with its
`for (level = 2; level > 0; level--)` loop unrolled (levels 2 and 1): the
result is the location `(table, index)` of the level-0 entry, or `none` for
the C `NULL`, together with the possibly-extended state. -/
def vm_getpte (st : St) (pgtbl va : Nat) (alloc : Bool) :
    Option (Nat × Nat) × St :=
  match getpteStep st pgtbl va 2 alloc with
  | (none, st') => (none, st')
  | (some t1, st1) =>
    match getpteStep st1 t1 va 1 alloc with
    | (none, st') => (none, st')
    | (some t0, st2) => (some (t0, vpn va 0), st2)

/-- The per-page loop of the week3 `vm_mappages`, `n` pages starting at `va`
mapped to `pa`: walk with creation (`NULL` is a panic), log-and-overwrite an
already-valid leaf, store `PA_TO_PTE(pa+i) | perm | PTE_V`. -/
def vm_mappages_loop (st : St) (pgtbl va pa perm : Nat) : Nat → Option St
  | 0 => some st
  | n + 1 =>
    match vm_getpte st pgtbl va true with
    | (none, _) => none
    | (some (t, i), st1) =>
      let st2 := { st1 with mem := Mem.write st1.mem t i (paToPte pa ||| perm ||| 1) }
      vm_mappages_loop st2 pgtbl (va + 4096) (pa + 4096) perm n

/-- `vm_mappages(pgtbl, va, pa, len, perm)` of the week3 `vmem.c`: panics
(`none`) on unaligned `va`/`pa`/`len` or on permission bits outside
`PTE_R|W|X|U|G` (`~` taken on a 32-bit int); an already-mapped page is only
logged and overwritten. -/
def vm_mappages (st : St) (pgtbl va pa len perm : Nat) : Option St :=
  if va % 4096 ≠ 0 ∨ pa % 4096 ≠ 0 ∨ len % 4096 ≠ 0 then none
  else if perm &&& 4294967233 ≠ 0 then none
  else vm_mappages_loop st pgtbl va pa perm (len / 4096)

/-- The per-page loop of the week3 `vm_unmappages` (`endAddr` is the linker
symbol `end`): walk without creation — the not-mapped check has its panic
commented out, after which the C code dereferences the entry pointer, so a
`NULL` walk result is modelled as the crash `none`; when `freeit` is set the
frame is returned to the region chosen by comparing its address with
`PG_ROUND_DOWN(end) + KERNEL_PAGES*PGSIZE`; the entry is then cleared. -/
def vm_unmappages_loop (st : St) (pgtbl va : Nat) (freeit : Bool)
    (endAddr : Nat) : Nat → Option St
  | 0 => some st
  | n + 1 =>
    match vm_getpte st pgtbl va false with
    | (none, _) => none
    | (some (t, i), st0) =>
      let pte := st0.mem t i
      let st1 :=
        if freeit then
          pmem_free st0 (pteToPa pte)
            (decide (pteToPa pte < endAddr / 4096 * 4096 + KERNEL_PAGES * 4096))
        else st0
      let st2 := { st1 with mem := Mem.write st1.mem t i 0 }
      vm_unmappages_loop st2 pgtbl (va + 4096) freeit endAddr n

/-- `vm_unmappages(pgtbl, va, len, freeit)` of the week3 `vmem.c`. -/
def vm_unmappages (st : St) (pgtbl va len : Nat) (freeit : Bool)
    (endAddr : Nat) : Option St :=
  if va % 4096 ≠ 0 ∨ len % 4096 ≠ 0 then none
  else vm_unmappages_loop st pgtbl va freeit endAddr (len / 4096)

/-- `vm_walkaddr(pgtbl, va)` of the week3 `vmem.c`: 0 for `va > VA_MAX`, for a
failed or invalid walk, and for an interior entry (`PTE_IS_TABLE`); otherwise
`PTE_TO_PA(pte) + (va & (PGSIZE-1))`. -/
def vm_walkaddr (st : St) (pgtbl va : Nat) : Nat :=
  if VA_MAX < va then 0
  else
    match vm_getpte st pgtbl va false with
    | (none, _) => 0
    | (some (t, i), _) =>
      let pte := st.mem t i
      if pte % 2 ≠ 1 then 0
      else if pte % 16 = 1 then 0
      else pteToPa pte + va % 4096

end Week3

namespace SC

/-- `VA_MAX = 1ul << 38` of the 系统调用 `riscv.h`. -/
def VA_MAX : Nat := 2 ^ 38

/-- `TRAMPOLINE = VA_MAX - PGSIZE` (memlayout.h). -/
def TRAMPOLINE : Nat := VA_MAX - 4096

/-- `TRAPFRAME = TRAMPOLINE - PGSIZE` (memlayout.h). -/
def TRAPFRAME : Nat := TRAMPOLINE - 4096

/-- One `alloc_region_t` of the 系统调用 `pmem.c`: bounds, the `allocable`
counter and the free list (list of frame base addresses). -/
structure Region where
  lo : Nat
  hi : Nat
  allocable : Nat
  list : List Nat

/-- The two regions of the 系统调用 `pmem.c` plus physical memory. -/
structure St where
  mem : Mem
  kern : Region
  user : Region

/-- `pmem_alloc(in_kernel)` of the 系统调用 `pmem.c`: panic (`none`) when
`allocable == 0 || list_head.next == NULL`; otherwise pop the head, decrement
`allocable`, `memset` the frame to zero and return it. -/
def pmem_alloc (st : St) (in_kernel : Bool) : Option (Nat × St) :=
  let tr := if in_kernel then st.kern else st.user
  if tr.allocable = 0 ∨ tr.list = [] then none
  else
    match tr.list with
    | [] => none
    | a :: rest =>
      let tr' := { tr with list := rest, allocable := tr.allocable - 1 }
      let st1 := if in_kernel then { st with kern := tr' } else { st with user := tr' }
      some (a, { st1 with mem := Mem.fill st1.mem a 0 })

/-- `pmem_free(page, in_kernel)` of the 系统调用 `pmem.c`: panic (`none`) on a
non-page-aligned address or one outside `[begin, end)` of the chosen region;
otherwise `memset` the frame to zero, store the old head into its word 0 (the
intrusive `free_page->next = list_head.next`), push it and increment
`allocable`. -/
def pmem_free (st : St) (page : Nat) (in_kernel : Bool) : Option St :=
  if page % 4096 ≠ 0 then none
  else
    let tr := if in_kernel then st.kern else st.user
    if page < tr.lo ∨ tr.hi ≤ page then none
    else
      let m1 := Mem.write (Mem.fill st.mem page 0) page 0 (headAddr tr.list)
      let tr' := { tr with list := page :: tr.list, allocable := tr.allocable + 1 }
      some (if in_kernel then { st with mem := m1, kern := tr' }
            else { st with mem := m1, user := tr' })

/-- One iteration of the level loop of the 系统调用 `vm_getpte` (kvm.c): a
valid entry is descended through; an invalid one returns `NULL` when `alloc`
is unset, and otherwise installs a zeroed kernel frame as `PA_TO_PTE | PTE_V`
(here `pmem_alloc` panics instead of returning `NULL`, so the C `== NULL`
test is dead).  Outer `none` is that panic; inner `none` is the C `NULL`. -/
def getpteStep (st : St) (tbl va level : Nat) (alloc : Bool) :
    Option (Option Nat × St) :=
  let pte := st.mem tbl (vpn va level)
  if pte % 2 = 1 then
    some (some (pteToPa pte), st)
  else if ¬ alloc then
    some (none, st)
  else
    match pmem_alloc st true with
    | none => none
    | some (pa, st1) =>
      let m1 := Mem.fill st1.mem pa 0
      let w := paToPte pa ||| 1
      some (some pa, { st1 with mem := Mem.write m1 tbl (vpn va level) w })

/-- `vm_getpte(pgtbl, va, alloc)` of the 系统调用 `kvm.c`, the
`for (level = 2; level > 0; level--)` loop unrolled; no bound check on `va`
is performed.  Result: location of the level-0 entry (inner `none` = C
`NULL`) and the state; outer `none` is a `pmem_alloc` panic. -/
def vm_getpte (st : St) (pgtbl va : Nat) (alloc : Bool) :
    Option (Option (Nat × Nat) × St) :=
  match getpteStep st pgtbl va 2 alloc with
  | none => none
  | some (none, st') => some (none, st')
  | some (some t1, st1) =>
    match getpteStep st1 t1 va 1 alloc with
    | none => none
    | some (none, st') => some (none, st')
    | some (some t0, st2) => some (some (t0, vpn va 0), st2)

/-- The per-page loop of the 系统调用 `vm_mappages` (kvm.c), `n` pages from
`mapStart`: a failed walk, and equally a leaf that is already valid, panic
(`"virtual address already mapped"`); otherwise the entry becomes
`PA_TO_PTE(pa) | perm | PTE_V`. -/
def vm_mappages_loop (st : St) (pgtbl mapStart pa perm : Nat) : Nat → Option St
  | 0 => some st
  | n + 1 =>
    match vm_getpte st pgtbl mapStart true with
    | none => none
    | some (none, _) => none
    | some (some (t, i), st1) =>
      if st1.mem t i % 2 = 1 then none
      else
        let st2 := { st1 with mem := Mem.write st1.mem t i (paToPte pa ||| perm ||| 1) }
        vm_mappages_loop st2 pgtbl (mapStart + 4096) (pa + 4096) perm n

/-- `vm_mappages(pgtbl, va, pa, len, perm)` of the 系统调用 `kvm.c`: panics on
`len == 0`, unaligned `va`/`pa`, or `va + len > VA_MAX`; then maps the pages
from `PG_ROUND_DOWN(va)` to `PG_ROUND_DOWN(va+len-1)` inclusive. -/
def vm_mappages (st : St) (pgtbl va pa len perm : Nat) : Option St :=
  if len = 0 then none
  else if va % 4096 ≠ 0 ∨ pa % 4096 ≠ 0 then none
  else if VA_MAX < va + len then none
  else
    vm_mappages_loop st pgtbl (va / 4096 * 4096) pa perm
      (((va + len - 1) / 4096 * 4096 - va / 4096 * 4096) / 4096 + 1)

/-- `uvm_get_phys_addr(pgtbl, va)` of the 系统调用 `uvm.c`: 0 for a `NULL`
table or `va >= TRAMPOLINE`, for a failed walk, and for an entry that is not
both valid and user-accessible; otherwise the frame address plus the in-page
offset. -/
def uvm_get_phys_addr (st : St) (pgtbl va : Nat) : Nat :=
  if pgtbl = 0 ∨ TRAMPOLINE ≤ va then 0
  else
    match vm_getpte st pgtbl va false with
    | none => 0
    | some (none, _) => 0
    | some (some (t, i), _) =>
      let pte := st.mem t i
      if ¬ (pte % 2 = 1) ∨ ¬ (pte / 16 % 2 = 1) then 0
      else pteToPa pte + va % 4096

end SC

/-- Byte view of the word-granular memory: byte `addr` lives in word
`addr % 4096 / 8` of the frame at `addr / 4096 * 4096`, little-endian. -/
def Mem.byteAt (m : Mem) (addr : Nat) : Nat :=
  m (addr / 4096 * 4096) (addr % 4096 / 8) / 256 ^ (addr % 8) % 256

/-- Store one byte into the word-granular memory (little-endian surgery on
the containing word). -/
def Mem.writeByte (m : Mem) (addr v : Nat) : Mem :=
  let base := addr / 4096 * 4096
  let idx := addr % 4096 / 8
  let p := addr % 8
  let w := m base idx
  Mem.write m base idx (w + v % 256 * 256 ^ p - w / 256 ^ p % 256 * 256 ^ p)

/-- A byte-addressed kernel-side buffer, the destination of `uvm_copyin` /
source of `uvm_copyout` (the kernel runs on a direct mapping, so these are
plain byte reads/writes at the given kernel virtual address). -/
abbrev KBuf : Type := Nat → Nat

/-- Copy `n` bytes from physical byte address `src` into the kernel buffer at
`dst` (the `memmove` of `uvm_copyin`). -/
def copyBytesIn (m : Mem) (kbuf : KBuf) (dst src : Nat) : Nat → KBuf
  | 0 => kbuf
  | n + 1 =>
    copyBytesIn m (fun a => if a = dst then Mem.byteAt m src else kbuf a)
      (dst + 1) (src + 1) n

/-- Copy `n` bytes from the kernel buffer at `src` to physical byte address
`dst` (the `memmove` of `uvm_copyout`). -/
def copyBytesOut (kbuf : KBuf) (m : Mem) (dst src : Nat) : Nat → Mem
  | 0 => m
  | n + 1 => copyBytesOut kbuf (Mem.writeByte m dst (kbuf src)) (dst + 1) (src + 1) n

namespace SC

/-- The page loop of `uvm_copyin` (系统调用 `uvm.c`): translate `curr_src`
via `uvm_get_phys_addr` — the `assert(pa != 0)` is a panic (`none`) — then
`memmove` the in-page portion to the kernel buffer.  As in the C source the
page offset is added to the already-offset translation result. -/
def uvm_copyin_loop (st : St) (pgtbl : Nat) (kbuf : KBuf)
    (dst src remaining : Nat) : Option KBuf :=
  if remaining = 0 then some kbuf
  else
    let pa := uvm_get_phys_addr st pgtbl src
    if pa = 0 then none
    else
      let off := src % 4096
      let copyLen := min (4096 - off) remaining
      let kbuf1 := copyBytesIn st.mem kbuf dst (pa + off) copyLen
      uvm_copyin_loop st pgtbl kbuf1 (dst + copyLen) (src + copyLen)
        (remaining - copyLen)
  termination_by remaining
  decreasing_by
    have : src % 4096 < 4096 := Nat.mod_lt _ (by norm_num)
    omega

/-- `uvm_copyin(pgtbl, dst, src, len)` of the 系统调用 `uvm.c`: the guard
clause returns silently; a translation miss inside the loop panics. -/
def uvm_copyin (st : St) (kbuf : KBuf) (pgtbl dst src len : Nat) : Option KBuf :=
  if len = 0 ∨ pgtbl = 0 ∨ dst = 0 ∨ TRAMPOLINE ≤ src then some kbuf
  else uvm_copyin_loop st pgtbl kbuf dst src len

/-- The page loop of `uvm_copyout` (系统调用 `uvm.c`): translate `curr_dst`
(assert-panic on miss) and `memmove` the in-page portion from the kernel
buffer into physical memory. -/
def uvm_copyout_loop (st : St) (pgtbl : Nat) (kbuf : KBuf)
    (dst src remaining : Nat) : Option St :=
  if remaining = 0 then some st
  else
    let pa := uvm_get_phys_addr st pgtbl dst
    if pa = 0 then none
    else
      let off := dst % 4096
      let copyLen := min (4096 - off) remaining
      let st1 := { st with mem := copyBytesOut kbuf st.mem (pa + off) src copyLen }
      uvm_copyout_loop st1 pgtbl kbuf (dst + copyLen) (src + copyLen)
        (remaining - copyLen)
  termination_by remaining
  decreasing_by
    have : dst % 4096 < 4096 := Nat.mod_lt _ (by norm_num)
    omega

/-- `uvm_copyout(pgtbl, dst, src, len)` of the 系统调用 `uvm.c`. -/
def uvm_copyout (st : St) (kbuf : KBuf) (pgtbl dst src len : Nat) : Option St :=
  if len = 0 ∨ pgtbl = 0 ∨ src = 0 ∨ TRAMPOLINE ≤ dst then some st
  else uvm_copyout_loop st pgtbl kbuf dst src len

/-- The byte loop of one `uvm_copyin_str` page: copy up to `n` bytes to the
kernel buffer, stopping after copying a zero byte; returns the new buffer and
`some j` when the terminator was copied at relative index `j`. -/
def strCopyStep (m : Mem) (kbuf : KBuf) (dst src : Nat) : Nat → KBuf × Option Nat
  | 0 => (kbuf, none)
  | n + 1 =>
    let b := Mem.byteAt m src
    let kbuf1 : KBuf := fun a => if a = dst then b else kbuf a
    if b = 0 then (kbuf1, some 0)
    else
      match strCopyStep m kbuf1 (dst + 1) (src + 1) n with
      | (k, none) => (k, none)
      | (k, some j) => (k, some (j + 1))

/-- The page loop of `uvm_copyin_str` (系统调用 `uvm.c`): translation miss is
an assert-panic; a page whose copied portion contained `'\0'` ends the loop
with `true`; otherwise `actual_copy = copy_len` bytes were consumed. -/
def uvm_copyin_str_loop (st : St) (pgtbl : Nat) (kbuf : KBuf)
    (dst src remaining : Nat) : Option (KBuf × Bool) :=
  if remaining = 0 then some (kbuf, false)
  else
    let pa := uvm_get_phys_addr st pgtbl src
    if pa = 0 then none
    else
      let off := src % 4096
      let copyLen := min (4096 - off) remaining
      match strCopyStep st.mem kbuf dst (pa + off) copyLen with
      | (kbuf1, some _) => some (kbuf1, true)
      | (kbuf1, none) =>
        let actual := min copyLen remaining
        uvm_copyin_str_loop st pgtbl kbuf1 (dst + actual) (src + actual)
          (remaining - actual)
  termination_by remaining
  decreasing_by
    have : src % 4096 < 4096 := Nat.mod_lt _ (by norm_num)
    omega

/-- `uvm_copyin_str(pgtbl, dst, src, maxlen)` of the 系统调用 `uvm.c`: guard
clause returns silently; after the loop, when no terminator was found the
byte `dst[maxlen-1]` is forced to `'\0'`. -/
def uvm_copyin_str (st : St) (kbuf : KBuf) (pgtbl dst src maxlen : Nat) :
    Option KBuf :=
  if maxlen = 0 ∨ pgtbl = 0 ∨ dst = 0 ∨ TRAMPOLINE ≤ src then some kbuf
  else
    match uvm_copyin_str_loop st pgtbl kbuf dst src maxlen with
    | none => none
    | some (k, found) =>
      if found then some k
      else some (fun a => if a = dst + maxlen - 1 then 0 else k a)

/-- The entry loop of `destroy_pgtbl` (系统调用 `uvm.c`) over the given list
of indices of `pgtbl`: an invalid entry is skipped; a valid entry without
R/W/X is recursed into (`recur`) and its frame freed to the kernel region; a
leaf is freed to the user region when `PTE_U` is set, and its valid bit is
cleared either way. -/
def destroyLoop (recur : St → Nat → Option St) (pgtbl : Nat) :
    St → List Nat → Option St
  | st, [] => some st
  | st, i :: rest =>
    let pte := st.mem pgtbl i
    if pte % 2 ≠ 1 then destroyLoop recur pgtbl st rest
    else if pte % 16 / 2 = 0 then
      match recur st (pteToPa pte) with
      | none => none
      | some st1 =>
        match pmem_free st1 (pteToPa pte) true with
        | none => none
        | some st2 => destroyLoop recur pgtbl st2 rest
    else
      let st1opt := if pte / 16 % 2 = 1 then pmem_free st (pteToPa pte) false
                    else some st
      match st1opt with
      | none => none
      | some st1 =>
        let w := st1.mem pgtbl i
        let st2 := { st1 with mem := Mem.write st1.mem pgtbl i (w - w % 2) }
        destroyLoop recur pgtbl st2 rest

/-- `destroy_pgtbl(pgtbl, level)` of the 系统调用 `uvm.c`: it returns at once
for a `NULL` table or `level == 0`, and otherwise runs the 512-entry loop,
recursing with `level - 1`. -/
def destroyPgtbl : Nat → St → Nat → Option St
  | 0, st, _ => some st
  | level + 1, st, pgtbl =>
    if pgtbl = 0 then some st
    else destroyLoop (destroyPgtbl level) pgtbl st (List.range 512)

/-- `uvm_destroy_pgtbl(pgtbl)` of the 系统调用 `uvm.c`: recursive sweep from
`level = 3`, then `memset(pgtbl, 0, PGSIZE)` and `pmem_free(pgtbl, false)` —
the root frame goes to the **user** region. -/
def uvm_destroy_pgtbl (st : St) (pgtbl : Nat) : Option St :=
  if pgtbl = 0 then some st
  else
    match destroyPgtbl 3 st pgtbl with
    | none => none
    | some st1 => pmem_free { st1 with mem := Mem.fill st1.mem pgtbl 0 } pgtbl false

/-- The page loop of `copy_range` (系统调用 `uvm.c`), `n` pages from `va`:
assert-panics (`none`) on a failed or invalid source walk; allocates a user
frame (`pmem_alloc` panic propagates; `assert(page != 0)` kept), copies the
4096 bytes and maps it into `new` with the source entry's `PTE_FLAGS`. -/
def copy_range_loop (st : St) (old new va : Nat) : Nat → Option St
  | 0 => some st
  | n + 1 =>
    match vm_getpte st old va false with
    | none => none
    | some (none, _) => none
    | some (some (t, i), _) =>
      let pte := st.mem t i
      if pte % 2 ≠ 1 then none
      else
        let pa := pteToPa pte
        let flags := pte % 1024
        match pmem_alloc st false with
        | none => none
        | some (page, st1) =>
          if page = 0 then none
          else
            let st2 := { st1 with mem := Mem.copyPage st1.mem page pa }
            match vm_mappages st2 new va page 4096 flags with
            | none => none
            | some st3 => copy_range_loop st3 old new (va + 4096) n

/-- `copy_range(old, new, begin, end)` of the 系统调用 `uvm.c`:
`for (va = begin; va < end; va += PGSIZE)`. -/
def copy_range (st : St) (old new lo hi : Nat) : Option St :=
  copy_range_loop st old new lo ((hi - lo + 4095) / 4096)

/-- One `mmap_region_t` as used by `uvm_copy_pgtbl`: `{begin, npages}`; the
`next` chain is carried as the enclosing Lean list. -/
structure MmapRegion where
  lo : Nat
  npages : Nat

/-- The step-3 loop of `uvm_copy_pgtbl`: every region is checked to lie in
`[heap_top, TRAPFRAME)` (assert-panic otherwise) and copied. -/
def copy_mmap_list (st : St) (old new heap_top : Nat) :
    List MmapRegion → Option St
  | [] => some st
  | r :: rest =>
    let b := r.lo
    let e := b + r.npages * 4096
    if b < heap_top ∨ TRAPFRAME ≤ e then none
    else
      match copy_range st old new b e with
      | none => none
      | some st1 => copy_mmap_list st1 old new heap_top rest

/-- `uvm_copy_pgtbl(old, new, heap_top, ustack_pages, mmap)` of the 系统调用
`uvm.c`: asserts non-`NULL` tables and an aligned `heap_top`; copies
`[PGSIZE, heap_top)` when non-empty, then the user stack
`[TRAPFRAME - PGSIZE - ustack_pages*PGSIZE, TRAPFRAME - PGSIZE)` when
`ustack_pages > 0`, then every mmap region. -/
def uvm_copy_pgtbl (st : St) (old new heap_top ustack_pages : Nat)
    (mmap : List MmapRegion) : Option St :=
  if old = 0 ∨ new = 0 then none
  else if heap_top % 4096 ≠ 0 then none
  else
    let step1 := if 4096 < heap_top then copy_range st old new 4096 heap_top
                 else some st
    match step1 with
    | none => none
    | some st1 =>
      let ustackBase := TRAPFRAME - 4096
      let ustackBottom := ustackBase - ustack_pages * 4096
      let step2 := if 0 < ustack_pages ∧ ustackBottom < ustackBase then
                     copy_range st1 old new ustackBottom ustackBase
                   else some st1
      match step2 with
      | none => none
      | some st2 => copy_mmap_list st2 old new heap_top mmap

/-- One frame-allocator call of the claim-C2 harness. -/
inductive POp where
  | alloc : POp
  | free : Nat → POp

/-- Run a sequence of `pmem_alloc`/`pmem_free` calls against one region
(`inK` fixed), carrying the list of currently allocated frames; a `free` must
name a currently allocated frame (the sequences of the claim), and any panic
aborts with `none`. -/
def runOps (inK : Bool) : St → List Nat → List POp → Option (St × List Nat)
  | st, allocated, [] => some (st, allocated)
  | st, allocated, POp.alloc :: ops =>
    match pmem_alloc st inK with
    | none => none
    | some (pa, st1) => runOps inK st1 (pa :: allocated) ops
  | st, allocated, POp.free pa :: ops =>
    if pa ∈ allocated then
      match pmem_free st pa inK with
      | none => none
      | some st1 => runOps inK st1 (allocated.erase pa) ops
    else none

end SC

section MemLemmas

theorem Mem.write_same (m : Mem) (pa idx v : Nat) :
    Mem.write m pa idx v pa idx = v := by
  simp [Mem.write]

theorem Mem.write_other (m : Mem) (pa idx v a j : Nat)
    (h : ¬ (a = pa ∧ j = idx)) : Mem.write m pa idx v a j = m a j := by
  simp [Mem.write, h]

theorem Mem.write_other_frame (m : Mem) (pa idx v a j : Nat) (h : a ≠ pa) :
    Mem.write m pa idx v a j = m a j := by
  simp [Mem.write]
  intro h'
  exact absurd h' h

theorem Mem.fill_same (m : Mem) (pa v i : Nat) : Mem.fill m pa v pa i = v := by
  simp [Mem.fill]

theorem Mem.fill_other (m : Mem) (pa v a i : Nat) (h : a ≠ pa) :
    Mem.fill m pa v a i = m a i := by
  simp [Mem.fill, h]

theorem Mem.copyPage_same (m : Mem) (dst src i : Nat) :
    Mem.copyPage m dst src dst i = m src i := by
  simp [Mem.copyPage]

theorem Mem.copyPage_other (m : Mem) (dst src a i : Nat) (h : a ≠ dst) :
    Mem.copyPage m dst src a i = m a i := by
  simp [Mem.copyPage, h]

end MemLemmas

namespace SC

/-- The level step of the walker without creation only reads. -/
theorem getpteStep_false (st : St) (tbl va l : Nat) :
    getpteStep st tbl va l false =
      some (if st.mem tbl (vpn va l) % 2 = 1
              then some (pteToPa (st.mem tbl (vpn va l))) else none, st) := by
  by_cases h : st.mem tbl (vpn va l) % 2 = 1 <;> simp [getpteStep, h]

/-- Closed form of the read-only walk of the 系统调用 `vm_getpte`: the state
is untouched and the level-0 entry location is determined by the two
interior reads. -/
theorem vm_getpte_false_eq (st : St) (p va : Nat) :
    vm_getpte st p va false =
      some ((if st.mem p (vpn va 2) % 2 = 1 then
               (if st.mem (pteToPa (st.mem p (vpn va 2))) (vpn va 1) % 2 = 1 then
                  some (pteToPa (st.mem (pteToPa (st.mem p (vpn va 2))) (vpn va 1)),
                        vpn va 0)
                else none)
             else none), st) := by
  unfold vm_getpte
  rw [getpteStep_false]
  by_cases h2 : st.mem p (vpn va 2) % 2 = 1
  · simp only [h2, if_true]
    rw [getpteStep_false]
    by_cases h1 : st.mem (pteToPa (st.mem p (vpn va 2))) (vpn va 1) % 2 = 1 <;>
      simp [h1]
  · simp [h2]

end SC

namespace Week3

/-- The level step of the week3 walker without creation only reads. -/
theorem getpteStep_false_w3 (st : St) (tbl va l : Nat) :
    getpteStep st tbl va l false =
      (if st.mem tbl (vpn va l) % 2 = 1
         then some (pteToPa (st.mem tbl (vpn va l))) else none, st) := by
  by_cases h : st.mem tbl (vpn va l) % 2 = 1 <;> simp [getpteStep, h]

/-- Closed form of the read-only walk of the week3 `vm_getpte`. -/
theorem vm_getpte_false_eq_w3 (st : St) (p va : Nat) :
    vm_getpte st p va false =
      ((if st.mem p (vpn va 2) % 2 = 1 then
          (if st.mem (pteToPa (st.mem p (vpn va 2))) (vpn va 1) % 2 = 1 then
             some (pteToPa (st.mem (pteToPa (st.mem p (vpn va 2))) (vpn va 1)),
                   vpn va 0)
           else none)
        else none), st) := by
  unfold vm_getpte
  rw [getpteStep_false_w3]
  by_cases h2 : st.mem p (vpn va 2) % 2 = 1
  · simp only [h2, if_true]
    rw [getpteStep_false_w3]
    by_cases h1 : st.mem (pteToPa (st.mem p (vpn va 2))) (vpn va 1) % 2 = 1 <;>
      simp [h1]
  · simp [h2]

end Week3

/-- All-zero physical memory, used by the concrete scenarios below. -/
def zeroMem : Mem := fun _ _ => 0

/-- A 系统调用 allocator state whose user region is exhausted. -/
def scUserEmptySt : SC.St :=
  { mem := zeroMem,
    kern := { lo := 0x80000000, hi := 0x80400000, allocable := 1,
              list := [0x80000000] },
    user := { lo := 0x80400000, hi := 0x88000000, allocable := 0, list := [] } }

/-- A week3 allocator state whose kernel free list is exhausted. -/
def w3KernEmptySt : Week3.St :=
  { mem := zeroMem, kfree := [], ufree := [0x80400000], kused := 3, uused := 0 }

/-- C5 counterexample: allocation failure is *not* region-dependent.  In the
系统调用 variant an allocation from the *user* region with an empty free list
panics (`none` is the `panic("pmem_alloc: no available physical pages")`),
which the claim says is never fatal; and in the week3 variant an allocation
from the *kernel* region with an empty free list merely returns `NULL`
without panicking, which the claim says is fatal. -/
theorem c5_alloc_failure_counterexample :
    SC.pmem_alloc scUserEmptySt false = none ∧
      Week3.pmem_alloc w3KernEmptySt true = (none, w3KernEmptySt) :=
  ⟨rfl, rfl⟩

/-- C5 (amended): allocation failure is region-independent in both variants.
The 系统调用 `pmem_alloc` panics on an exhausted free list for the kernel
*and* the user region alike, while the week3 `pmem_alloc` returns `NULL` for
both regions (printing a log line for the kernel region only). -/
theorem c5_alloc_failure_region_independent (st : SC.St) (stw : Week3.St) :
    ((st.user.allocable = 0 ∨ st.user.list = []) →
        SC.pmem_alloc st false = none) ∧
    ((st.kern.allocable = 0 ∨ st.kern.list = []) →
        SC.pmem_alloc st true = none) ∧
    (stw.kfree = [] → Week3.pmem_alloc stw true = (none, stw)) ∧
    (stw.ufree = [] → Week3.pmem_alloc stw false = (none, stw)) := by
  refine ⟨?_, ?_, ?_, ?_⟩
  · intro h
    simp only [SC.pmem_alloc, Bool.false_eq_true, if_false]
    rw [if_pos h]
  · intro h
    simp only [SC.pmem_alloc, if_true]
    rw [if_pos h]
  · intro h
    simp [Week3.pmem_alloc, h]
  · intro h
    simp [Week3.pmem_alloc, h]

/-- C5 witness: the amended statement evaluated on the concrete exhausted
states. -/
theorem c5_alloc_failure_witness :
    SC.pmem_alloc scUserEmptySt false = none ∧
      Week3.pmem_alloc w3KernEmptySt true = (none, w3KernEmptySt) :=
  ⟨(c5_alloc_failure_region_independent scUserEmptySt w3KernEmptySt).1
      (Or.inl rfl),
   (c5_alloc_failure_region_independent scUserEmptySt w3KernEmptySt).2.2.1 rfl⟩

/-- A week3 state whose memory holds the non-zero word 7 everywhere and whose
kernel free list carries one frame. -/
def w3JunkSt : Week3.St :=
  { mem := fun _ _ => 7, kfree := [0x80000000], ufree := [],
    kused := 0, uused := 0 }

/-- C7 counterexample: the week3 `pmem_alloc` successfully returns the frame
`0x80000000` whose contents (every word 7 here, the poison pattern after a
real `pmem_free`) are *not* zeroed — the claim requires every successfully
returned frame to be entirely zero-filled. -/
theorem c7_zero_fill_counterexample :
    (Week3.pmem_alloc w3JunkSt true).1 = some 0x80000000 ∧
      ((Week3.pmem_alloc w3JunkSt true).2).mem 0x80000000 0 = 7 :=
  ⟨rfl, rfl⟩


namespace SC

/-- Inversion of a successful kernel-region `pmem_alloc` (系统调用). -/
theorem pmem_alloc_true_spec {st : St} {pa : Nat} {st' : St}
    (h : pmem_alloc st true = some (pa, st')) :
    ∃ rest, st.kern.list = pa :: rest ∧ st.kern.allocable ≠ 0 ∧
      st' = { mem := Mem.fill st.mem pa 0,
              kern := { st.kern with list := rest, allocable := st.kern.allocable - 1 },
              user := st.user } := by
  unfold pmem_alloc at h
  simp only [if_true] at h
  rcases hl : st.kern.list with _ | ⟨a, rest⟩ <;> rw [hl] at h
  · simp at h
  · by_cases hz : st.kern.allocable = 0
    · simp [hz] at h
    · rw [if_neg (by simp [hz])] at h
      simp only [Option.some_inj, Prod.mk.injEq] at h
      obtain ⟨hpa, hst⟩ := h
      subst hpa
      exact ⟨rest, hl ▸ rfl, hz, hst.symm⟩

/-- Inversion of a successful user-region `pmem_alloc` (系统调用). -/
theorem pmem_alloc_false_spec {st : St} {pa : Nat} {st' : St}
    (h : pmem_alloc st false = some (pa, st')) :
    ∃ rest, st.user.list = pa :: rest ∧ st.user.allocable ≠ 0 ∧
      st' = { mem := Mem.fill st.mem pa 0,
              kern := st.kern,
              user := { st.user with list := rest, allocable := st.user.allocable - 1 } } := by
  unfold pmem_alloc at h
  simp only [Bool.false_eq_true, if_false] at h
  rcases hl : st.user.list with _ | ⟨a, rest⟩ <;> rw [hl] at h
  · simp at h
  · by_cases hz : st.user.allocable = 0
    · simp [hz] at h
    · rw [if_neg (by simp [hz])] at h
      simp only [Option.some_inj, Prod.mk.injEq] at h
      obtain ⟨hpa, hst⟩ := h
      subst hpa
      exact ⟨rest, hl ▸ rfl, hz, hst.symm⟩

end SC

/-- C7 (amended): only the 系统调用 `pmem_alloc` zero-fills the frame before
returning it; the week3 `pmem_alloc` hands the frame out with its previous
contents intact (after a `pmem_free` those are the 0xaa poison bytes), never
touching memory at all. -/
theorem c7_zero_fill_policy (st : SC.St) (b : Bool) (pa : Nat) (st' : SC.St)
    (h : SC.pmem_alloc st b = some (pa, st')) (stw : Week3.St) (b' : Bool) :
    (∀ i, st'.mem pa i = 0) ∧ ((Week3.pmem_alloc stw b').2).mem = stw.mem := by
  constructor
  · intro i
    cases b
    · obtain ⟨rest, -, -, hst⟩ := SC.pmem_alloc_false_spec h
      rw [hst]
      exact Mem.fill_same _ _ _ _
    · obtain ⟨rest, -, -, hst⟩ := SC.pmem_alloc_true_spec h
      rw [hst]
      exact Mem.fill_same _ _ _ _
  · cases b' <;> unfold Week3.pmem_alloc
    · cases stw.ufree <;> rfl
    · cases stw.kfree <;> rfl

/-- A 系统调用 state with one kernel frame free, over the junk memory. -/
def scJunkSt : SC.St :=
  { mem := fun _ _ => 7,
    kern := { lo := 0x80000000, hi := 0x80400000, allocable := 1,
              list := [0x80000000] },
    user := { lo := 0x80400000, hi := 0x88000000, allocable := 0, list := [] } }

/-- C7 witness: the amended statement evaluated on concrete states — the
系统调用 allocation of `0x80000000` really is zeroed, and the week3
allocation leaves the junk memory as it was. -/
theorem c7_zero_fill_witness :
    ((SC.pmem_alloc scJunkSt true).getD (0, scJunkSt)).2.mem 0x80000000 0 = 0 ∧
      ((Week3.pmem_alloc w3JunkSt true).2).mem = w3JunkSt.mem :=
  ⟨(c7_zero_fill_policy scJunkSt true 0x80000000
      ((SC.pmem_alloc scJunkSt true).getD (0, scJunkSt)).2 rfl w3JunkSt true).1 0,
   (c7_zero_fill_policy scJunkSt true 0x80000000
      ((SC.pmem_alloc scJunkSt true).getD (0, scJunkSt)).2 rfl w3JunkSt true).2⟩

/-- A week3 page-table state with the walk path for `VA_MAX` (all three VPNs
are 511) fully mapped: root 4096 → 8192 → 12288 → leaf frame 16384, `PTE_R`. -/
def w3TopMappedSt : Week3.St :=
  { mem := fun a i =>
      if a = 4096 ∧ i = 511 then paToPte 8192 ||| 1
      else if a = 8192 ∧ i = 511 then paToPte 12288 ||| 1
      else if a = 12288 ∧ i = 511 then paToPte 16384 ||| 2 ||| 1
      else 0,
    kfree := [], ufree := [], kused := 0, uused := 0 }

/-- C9 counterexample: the claim requires the walk to fail for every
`va ≥ VA_MAX`, but the week3 `vm_walkaddr` only rejects `va > VA_MAX`; at
`va = VA_MAX` itself it happily translates and returns a non-zero physical
address (16384 + 4095). -/
theorem c9_va_max_counterexample :
    Week3.vm_walkaddr w3TopMappedSt 4096 Week3.VA_MAX = 20479 := by
  rw [Week3.vm_walkaddr, if_neg (by decide), Week3.vm_getpte_false_eq_w3]
  decide

/-- C9 (amended): only `vm_walkaddr` bounds the virtual address, and only
strictly: every `va > VA_MAX` translates to 0, for any state and root
(`vm_getpte` itself performs no range check in either variant). -/
theorem c9_walkaddr_rejects_above_va_max (st : Week3.St) (root va : Nat)
    (h : Week3.VA_MAX < va) : Week3.vm_walkaddr st root va = 0 := by
  rw [Week3.vm_walkaddr, if_pos h]

/-- C9 witness: the amended statement at `va = VA_MAX + 1`. -/
theorem c9_walkaddr_witness :
    Week3.vm_walkaddr w3TopMappedSt 4096 (Week3.VA_MAX + 1) = 0 :=
  c9_walkaddr_rejects_above_va_max w3TopMappedSt 4096 (Week3.VA_MAX + 1)
    (by decide)

/-- C10: `uvm_get_phys_addr` filters on the user bit.  First conjunct: a
non-zero result implies the walk found a leaf that is valid *and*
user-accessible, and the result is its frame address plus the in-page
offset.  Second conjunct: conversely, inside the user range a valid walk to
a valid, user-accessible leaf yields exactly frame + offset. -/
theorem c10_get_phys_addr_user_filter (st : SC.St) (pgtbl va : Nat) :
    (SC.uvm_get_phys_addr st pgtbl va ≠ 0 →
      ∀ r, SC.vm_getpte st pgtbl va false = some (r, st) →
        ∃ t i, r = some (t, i) ∧ st.mem t i % 2 = 1 ∧
          st.mem t i / 16 % 2 = 1 ∧
          SC.uvm_get_phys_addr st pgtbl va = pteToPa (st.mem t i) + va % 4096) ∧
    (∀ t i, pgtbl ≠ 0 → va < SC.TRAMPOLINE →
      SC.vm_getpte st pgtbl va false = some (some (t, i), st) →
      st.mem t i % 2 = 1 → st.mem t i / 16 % 2 = 1 →
      SC.uvm_get_phys_addr st pgtbl va = pteToPa (st.mem t i) + va % 4096) := by
  constructor
  · intro hne r hr
    unfold SC.uvm_get_phys_addr at hne ⊢
    by_cases hg : pgtbl = 0 ∨ SC.TRAMPOLINE ≤ va
    · rw [if_pos hg] at hne
      exact absurd rfl hne
    · rw [if_neg hg] at hne ⊢
      rw [hr] at hne ⊢
      rcases r with _ | ⟨t, i⟩
      · simp at hne
      · by_cases hv : st.mem t i % 2 = 1
        · by_cases hu : st.mem t i / 16 % 2 = 1
          · refine ⟨t, i, rfl, hv, hu, ?_⟩
            simp [hv, hu]
          · simp [hv, hu] at hne
        · simp [hv] at hne
  · intro t i hp hva hr hv hu
    unfold SC.uvm_get_phys_addr
    rw [if_neg (by simp [hp]; omega), hr]
    simp [hv, hu]

/-- A 系统调用 page-table state mapping `va = 0` (all VPNs 0): root 4096 →
8192 → 12288 → user leaf frame 16384 with `PTE_U|PTE_W|PTE_R|PTE_V`. -/
def scUserMappedSt : SC.St :=
  { mem := fun a i =>
      if a = 4096 ∧ i = 0 then paToPte 8192 ||| 1
      else if a = 8192 ∧ i = 0 then paToPte 12288 ||| 1
      else if a = 12288 ∧ i = 0 then paToPte 16384 ||| 23
      else 0,
    kern := { lo := 0x80000000, hi := 0x80400000, allocable := 0, list := [] },
    user := { lo := 0x80400000, hi := 0x88000000, allocable := 0, list := [] } }

/-- C10 witness: on the concrete state the translation of `va = 5` inside the
mapped user page is `16384 + 5`. -/
theorem c10_get_phys_addr_witness :
    SC.uvm_get_phys_addr scUserMappedSt 4096 5 = 16389 := by
  have h := (c10_get_phys_addr_user_filter scUserMappedSt 4096 5).2 12288 0
    (by decide) (by decide)
    (by rw [SC.vm_getpte_false_eq]
        simp only [Option.some_inj, Prod.mk.injEq]
        exact ⟨by decide, trivial⟩)
    (by decide) (by decide)
  rw [h]
  decide

/-- An all-zero kernel-side byte buffer. -/
def zeroKBuf : KBuf := fun _ => 0

/-- A 系统调用 state whose page table at 4096 is entirely empty. -/
def scEmptyTblSt : SC.St :=
  { mem := zeroMem,
    kern := { lo := 0x80000000, hi := 0x80400000, allocable := 0, list := [] },
    user := { lo := 0x80400000, hi := 0x88000000, allocable := 0, list := [] } }

/-- C8 counterexample: `uvm_copyin` on an unmapped user address inside the
user range does not report an ordinary failure — it hits
`assert(pa != 0, "uvm_copyin: invalid user virtual address")`, which panics
(`none`), a kernel-fatal condition. -/
theorem c8_copy_fault_counterexample :
    SC.uvm_copyin scEmptyTblSt zeroKBuf 4096 1 0 1 = none := by
  rw [SC.uvm_copyin, if_neg (by decide), SC.uvm_copyin_loop.eq_def]
  have h : SC.uvm_get_phys_addr scEmptyTblSt 4096 0 = 0 := by decide
  simp [h]

/-- C8 (amended): a walk miss in `uvm_copyin`, `uvm_copyout` or
`uvm_copyin_str` escalates to a kernel panic (the `assert`), never an
ordinary failure; only the degenerate guard cases return silently. -/
theorem c8_copy_fault_is_fatal (st : SC.St) (kbuf : KBuf)
    (pgtbl dst src len : Nat) :
    (len ≠ 0 → pgtbl ≠ 0 → dst ≠ 0 → src < SC.TRAMPOLINE →
      SC.uvm_get_phys_addr st pgtbl src = 0 →
      SC.uvm_copyin st kbuf pgtbl dst src len = none) ∧
    (len ≠ 0 → pgtbl ≠ 0 → src ≠ 0 → dst < SC.TRAMPOLINE →
      SC.uvm_get_phys_addr st pgtbl dst = 0 →
      SC.uvm_copyout st kbuf pgtbl dst src len = none) ∧
    (len ≠ 0 → pgtbl ≠ 0 → dst ≠ 0 → src < SC.TRAMPOLINE →
      SC.uvm_get_phys_addr st pgtbl src = 0 →
      SC.uvm_copyin_str st kbuf pgtbl dst src len = none) := by
  refine ⟨?_, ?_, ?_⟩
  · intro h1 h2 h3 h4 h5
    rw [SC.uvm_copyin, if_neg (by simp [h1, h2, h3]; omega),
        SC.uvm_copyin_loop.eq_def]
    simp [h1, h5]
  · intro h1 h2 h3 h4 h5
    rw [SC.uvm_copyout, if_neg (by simp [h1, h2, h3]; omega),
        SC.uvm_copyout_loop.eq_def]
    simp [h1, h5]
  · intro h1 h2 h3 h4 h5
    rw [SC.uvm_copyin_str, if_neg (by simp [h1, h2, h3]; omega),
        SC.uvm_copyin_str_loop.eq_def]
    simp [h1, h5]

/-- C8 witness: the amended statement evaluated at the unmapped address
4096 of the concrete one-page state. -/
theorem c8_copy_fault_witness :
    SC.uvm_copyin scUserMappedSt zeroKBuf 4096 1 4096 8 = none :=
  (c8_copy_fault_is_fatal scUserMappedSt zeroKBuf 4096 1 4096 8).1
    (by decide) (by decide) (by decide) (by decide) (by decide)

namespace SC

/-- The region a Boolean tag selects, as in `in_kernel ? &kern_region :
&user_region`. -/
def St.region (st : St) (b : Bool) : Region :=
  if b then st.kern else st.user

/-- Region-generic inversion of a successful `pmem_alloc`. -/
theorem pmem_alloc_region_spec {st : St} {b : Bool} {pa : Nat} {st' : St}
    (h : pmem_alloc st b = some (pa, st')) :
    (st.region b).list = pa :: (st'.region b).list ∧
    (st.region b).allocable ≠ 0 ∧
    (st'.region b).allocable = (st.region b).allocable - 1 ∧
    (st'.region b).lo = (st.region b).lo ∧
    (st'.region b).hi = (st.region b).hi ∧
    st'.region (!b) = st.region (!b) := by
  cases b
  · obtain ⟨rest, h1, h2, h3⟩ := pmem_alloc_false_spec h
    subst h3
    simp [St.region, h1, h2]
  · obtain ⟨rest, h1, h2, h3⟩ := pmem_alloc_true_spec h
    subst h3
    simp [St.region, h1, h2]

/-- Region-generic inversion of a successful `pmem_free`. -/
theorem pmem_free_region_spec {st : St} {pa : Nat} {b : Bool} {st' : St}
    (h : pmem_free st pa b = some st') :
    (st'.region b).list = pa :: (st.region b).list ∧
    (st'.region b).allocable = (st.region b).allocable + 1 ∧
    (st'.region b).lo = (st.region b).lo ∧
    (st'.region b).hi = (st.region b).hi ∧
    st'.region (!b) = st.region (!b) := by
  cases b <;> simp only [pmem_free, Bool.false_eq_true, if_false, if_true] at h
  · by_cases h4 : pa % 4096 ≠ 0
    · rw [if_pos h4] at h
      exact absurd h (by simp)
    · rw [if_neg h4] at h
      by_cases h5 : pa < st.user.lo ∨ st.user.hi ≤ pa
      · rw [if_pos h5] at h
        exact absurd h (by simp)
      · rw [if_neg h5] at h
        simp only [Option.some_inj] at h
        subst h
        simp [St.region]
  · by_cases h4 : pa % 4096 ≠ 0
    · rw [if_pos h4] at h
      exact absurd h (by simp)
    · rw [if_neg h4] at h
      by_cases h5 : pa < st.kern.lo ∨ st.kern.hi ≤ pa
      · rw [if_pos h5] at h
        exact absurd h (by simp)
      · rw [if_neg h5] at h
        simp only [Option.some_inj] at h
        subst h
        simp [St.region]

/-- The accounting invariant of one allocator region, relative to the ghost
list of currently allocated frames and the region's initial frame count. -/
def regionInv (r : Region) (allocated : List Nat) (total : Nat) : Prop :=
  r.allocable = r.list.length ∧
  r.list.length + allocated.length = total ∧
  (r.list ++ allocated).Nodup ∧
  ∀ a ∈ r.list ++ allocated, a % 4096 = 0 ∧ r.lo ≤ a ∧ a < r.hi

/-- The invariant is preserved by every successful run of alloc/free calls
against one region. -/
theorem runOps_preserves_inv (inK : Bool) (total : Nat) :
    ∀ (ops : List POp) (st : St) (allocated : List Nat) (st' : St)
      (allocated' : List Nat),
      regionInv (st.region inK) allocated total →
      runOps inK st allocated ops = some (st', allocated') →
      regionInv (st'.region inK) allocated' total := by
  intro ops
  induction ops with
  | nil =>
    intro st allocated st' allocated' hinv h
    simp only [runOps, Option.some_inj, Prod.mk.injEq] at h
    rw [← h.1, ← h.2]
    exact hinv
  | cons op rest ih =>
    intro st allocated st' allocated' hinv h
    cases op with
    | alloc =>
      rw [runOps] at h
      rcases ha : pmem_alloc st inK with _ | ⟨pa, st1⟩ <;> rw [ha] at h
      · exact absurd h (by simp)
      · obtain ⟨hl, hz, hab, hlo, hhi, -⟩ := pmem_alloc_region_spec ha
        refine ih st1 (pa :: allocated) st' allocated' ?_ h
        obtain ⟨i1, i2, i3, i4⟩ := hinv
        have hlen : (st.region inK).list.length =
            (st1.region inK).list.length + 1 := by
          rw [hl]
          simp
        have hperm : ((st1.region inK).list ++ pa :: allocated).Perm
            ((st.region inK).list ++ allocated) := by
          rw [hl]
          exact List.perm_middle
        refine ⟨?_, ?_, ?_, ?_⟩
        · omega
        · simp only [List.length_cons]
          omega
        · exact hperm.nodup_iff.mpr i3
        · intro a hmem
          rw [hlo, hhi]
          exact i4 a (hperm.mem_iff.mp hmem)
    | free pa =>
      rw [runOps] at h
      split at h
      · rcases hf : pmem_free st pa inK with _ | st1 <;> rw [hf] at h
        · exact absurd h (by simp)
        · rename_i hmem
          obtain ⟨hl, hab, hlo, hhi, -⟩ := pmem_free_region_spec hf
          refine ih st1 (allocated.erase pa) st' allocated' ?_ h
          obtain ⟨i1, i2, i3, i4⟩ := hinv
          have hperm : ((st1.region inK).list ++ allocated.erase pa).Perm
              ((st.region inK).list ++ allocated) := by
            rw [hl]
            exact List.perm_middle.symm.trans
              (List.Perm.append_left _ (List.perm_cons_erase hmem).symm)
          have hlen : (st1.region inK).list.length =
              (st.region inK).list.length + 1 := by
            rw [hl]
            simp
          have helen : (allocated.erase pa).length + 1 = allocated.length := by
            rw [List.length_erase_of_mem hmem]
            have : allocated ≠ [] := by
              intro hnil
              rw [hnil] at hmem
              simp at hmem
            have := List.length_pos.mpr this
            omega
          refine ⟨?_, ?_, ?_, ?_⟩
          · omega
          · omega
          · exact hperm.nodup_iff.mpr i3
          · intro a hmem'
            rw [hlo, hhi]
            exact i4 a (hperm.mem_iff.mp hmem')
      · exact absurd h (by simp)

end SC

/-- C2: frame accounting.  For every sequence of `pmem_alloc`/`pmem_free`
calls against one region (frees naming currently allocated frames), starting
from a well-formed region: the free count plus the number of currently
allocated frames always equals the region's initial frame count, the
currently allocated frames are pairwise distinct (no frame is handed out
twice without an intervening free of it), and a further successful
allocation never returns a currently allocated frame. -/
theorem c2_frame_accounting (inK : Bool) (st0 : SC.St) (ops : List SC.POp)
    {st' : SC.St} {allocated' : List Nat}
    (hinv : SC.regionInv (st0.region inK) [] (st0.region inK).list.length)
    (h : SC.runOps inK st0 [] ops = some (st', allocated')) :
    (st'.region inK).allocable + allocated'.length =
        (st0.region inK).list.length ∧
    allocated'.Nodup ∧
    ∀ pa st2, SC.pmem_alloc st' inK = some (pa, st2) → pa ∉ allocated' := by
  obtain ⟨i1, i2, i3, -⟩ :=
    SC.runOps_preserves_inv inK (st0.region inK).list.length ops st0 [] st'
      allocated' hinv h
  refine ⟨by omega, (List.nodup_append.mp i3).2.1, ?_⟩
  intro pa st2 ha
  obtain ⟨hl, -, -, -, -, -⟩ := SC.pmem_alloc_region_spec ha
  have hpa : pa ∈ (st'.region inK).list := by
    rw [hl]
    exact List.mem_cons_self _ _
  exact fun hmem => (List.nodup_append.mp i3).2.2 hpa hmem

/-- The concrete two-frame user region driving the C2 witness. -/
def c2St0 : SC.St :=
  { mem := zeroMem,
    kern := { lo := 0x80000000, hi := 0x80400000, allocable := 0, list := [] },
    user := { lo := 0x80400000, hi := 0x88000000, allocable := 2,
              list := [0x80400000, 0x80401000] } }

/-- The concrete operation sequence driving the C2 witness. -/
def c2Ops : List SC.POp :=
  [SC.POp.alloc, SC.POp.alloc, SC.POp.free 0x80400000, SC.POp.alloc]

/-- C2 witness: after alloc, alloc, free, alloc on the two-frame region the
counts balance and the allocated frames are distinct. -/
theorem c2_frame_accounting_witness :
    ((SC.runOps false c2St0 [] c2Ops).getD (c2St0, [])).1.user.allocable +
        ((SC.runOps false c2St0 [] c2Ops).getD (c2St0, [])).2.length = 2 ∧
      ((SC.runOps false c2St0 [] c2Ops).getD (c2St0, [])).2.Nodup := by
  have h := c2_frame_accounting false c2St0 c2Ops
    ⟨by decide, by decide, by decide, by decide⟩
    (rfl : SC.runOps false c2St0 [] c2Ops =
      some ((SC.runOps false c2St0 [] c2Ops).getD (c2St0, [])))
  exact ⟨by simpa [SC.St.region] using h.1, h.2.1⟩

namespace Week3

/-- The frames reachable through the valid entries of the table page `t`
(`PTE_TO_PA` of each valid entry). -/
def tblChildren (st : St) (t : Nat) : List Nat :=
  (List.range 512).filterMap fun i =>
    if st.mem t i % 2 = 1 then some (pteToPa (st.mem t i)) else none

/-- The table pages of the tree rooted at `root`: the root, the level-1
tables reachable from it, and the level-0 tables reachable from those. -/
def tables (st : St) (root : Nat) : List Nat :=
  root :: tblChildren st root ++ (tblChildren st root).flatMap (tblChildren st)

/-- Well-formedness of a week3 page-table state: the tree's table pages are
pairwise distinct and the kernel free list (the source of new interior
tables) is duplicate-free, page-aligned, and disjoint from the tree. -/
def WF (st : St) (root : Nat) : Prop :=
  (tables st root).Nodup ∧
  st.kfree.Nodup ∧
  (∀ a ∈ st.kfree, a % 4096 = 0) ∧
  (∀ a ∈ st.kfree, a ∉ tables st root)

theorem mem_tblChildren {st : St} {t i : Nat} (hi : i < 512)
    (hv : st.mem t i % 2 = 1) : pteToPa (st.mem t i) ∈ tblChildren st t := by
  refine List.mem_filterMap.mpr ⟨i, List.mem_range.mpr hi, ?_⟩
  rw [if_pos hv]

/-- Creating level step on an already-valid entry: descend, no side effect. -/
theorem getpteStep_true_valid {st : St} {tbl va l : Nat}
    (hv : st.mem tbl (vpn va l) % 2 = 1) :
    getpteStep st tbl va l true = (some (pteToPa (st.mem tbl (vpn va l))), st) := by
  simp [getpteStep, hv]

/-- Creating level step on an invalid entry with kernel frames available:
install a zeroed fresh table. -/
theorem getpteStep_true_alloc {st : St} {tbl va l : Nat} {a : Nat}
    {rest : List Nat} (hv : ¬ st.mem tbl (vpn va l) % 2 = 1)
    (hk : st.kfree = a :: rest) (ha : a ≠ 0) :
    getpteStep st tbl va l true =
      (some (pteToPa (paToPte a ||| 1 ||| 32)),
       { st with
          mem := Mem.write (Mem.fill st.mem a 0) tbl (vpn va l)
                   (paToPte a ||| 1 ||| 32),
          kfree := rest, kused := st.kused + 1 }) := by
  simp [getpteStep, hv, pmem_alloc, hk, ha]

/-- The interior PTE written for a fresh table page `a`. -/
theorem interior_pte_valid {a : Nat} (ha : a % 4096 = 0) :
    (paToPte a ||| 1 ||| 32) % 2 = 1 ∧ pteToPa (paToPte a ||| 1 ||| 32) = a := by
  rw [Nat.or_assoc]
  have h33 : (1 : Nat) ||| 32 = 33 := by decide
  rw [h33]
  exact ⟨by rw [construct_mod_2 (by norm_num)], pteToPa_construct ha (by norm_num)⟩

/-- Creating level step with an exhausted kernel free list: `NULL`. -/
theorem getpteStep_true_nil {st : St} {tbl va l : Nat}
    (hv : ¬ st.mem tbl (vpn va l) % 2 = 1) (hk : st.kfree = []) :
    getpteStep st tbl va l true = (none, st) := by
  simp [getpteStep, hv, pmem_alloc, hk]

/-- Creating level step when the free list hands out the null frame: `NULL`. -/
theorem getpteStep_true_zero {st : St} {tbl va l : Nat} {rest : List Nat}
    (hv : ¬ st.mem tbl (vpn va l) % 2 = 1) (hk : st.kfree = 0 :: rest) :
    getpteStep st tbl va l true =
      (none, { st with kfree := rest, kused := st.kused + 1 }) := by
  simp [getpteStep, hv, pmem_alloc, hk]

/-- What a successful creating walk guarantees: the returned location is the
`vpn va 0` slot of a table `t0`; the two interior links of the walk path are
in place in the resulting state; and the path tables are pairwise distinct,
drawn from the original tree or the original kernel free list. -/
theorem getpte_create_spec {st : St} {root va : Nat} {t0 i0 : Nat} {st1 : St}
    (hwf : WF st root)
    (h : vm_getpte st root va true = (some (t0, i0), st1)) :
    i0 = vpn va 0 ∧
    ∃ t1,
      st1.mem root (vpn va 2) % 2 = 1 ∧
      pteToPa (st1.mem root (vpn va 2)) = t1 ∧
      st1.mem t1 (vpn va 1) % 2 = 1 ∧
      pteToPa (st1.mem t1 (vpn va 1)) = t0 ∧
      t1 ≠ t0 ∧ root ≠ t0 ∧ root ≠ t1 ∧
      (t1 ∈ tables st root ∨ t1 ∈ st.kfree) ∧
      (t0 ∈ tables st root ∨ t0 ∈ st.kfree) := by
  have hnd := hwf.1
  have hknd := hwf.2.1
  have hkal := hwf.2.2.1
  have hkdj := hwf.2.2.2
  have hroot_nin : root ∉ tblChildren st root ++
      (tblChildren st root).flatMap (tblChildren st) :=
    (List.nodup_cons.mp hnd).1
  unfold vm_getpte at h
  rcases h2 : getpteStep st root va 2 true with ⟨r2, stA⟩
  rw [h2] at h
  rcases r2 with _ | t1x
  · simp at h
  · dsimp only at h
    rcases h1 : getpteStep stA t1x va 1 true with ⟨r1, stB⟩
    rw [h1] at h
    rcases r1 with _ | t0x
    · simp at h
    · dsimp only at h
      simp only [Prod.mk.injEq, Option.some_inj] at h
      obtain ⟨⟨ht0eq, hieq⟩, hstB⟩ := h
      subst hstB
      subst ht0eq
      refine ⟨hieq.symm, t1x, ?_⟩
      by_cases hv2 : st.mem root (vpn va 2) % 2 = 1
      · rw [getpteStep_true_valid hv2] at h2
        simp only [Prod.mk.injEq, Option.some_inj] at h2
        obtain ⟨ht1eq, hstAeq⟩ := h2
        subst hstAeq
        have ht1mem : t1x ∈ tblChildren st root := by
          rw [← ht1eq]
          exact mem_tblChildren (vpn_lt_512 va 2) hv2
        have ht1tab : t1x ∈ tables st root :=
          List.mem_cons_of_mem _ (List.mem_append.mpr (Or.inl ht1mem))
        have hroot_ne_t1 : root ≠ t1x := by
          intro hc
          rw [← hc] at ht1mem
          exact hroot_nin (List.mem_append.mpr (Or.inl ht1mem))
        by_cases hv1 : st.mem t1x (vpn va 1) % 2 = 1
        · rw [getpteStep_true_valid hv1] at h1
          simp only [Prod.mk.injEq, Option.some_inj] at h1
          obtain ⟨ht0eq, hstBeq⟩ := h1
          subst hstBeq
          have ht0mem : t0x ∈ (tblChildren st root).flatMap (tblChildren st) := by
            rw [← ht0eq]
            exact List.mem_flatMap.mpr ⟨t1x, ht1mem,
              mem_tblChildren (vpn_lt_512 va 1) hv1⟩
          have hdisj := (List.nodup_append.mp (List.nodup_cons.mp hnd).2).2.2
          refine ⟨hv2, ht1eq, hv1, ht0eq, ?_, ?_, hroot_ne_t1,
            Or.inl ht1tab, Or.inl (List.mem_cons_of_mem _
              (List.mem_append.mpr (Or.inr ht0mem)))⟩
          · intro hc
            rw [hc] at ht1mem
            exact hdisj ht1mem ht0mem
          · intro hc
            rw [← hc] at ht0mem
            exact hroot_nin (List.mem_append.mpr (Or.inr ht0mem))
        · rcases hk : st.kfree with _ | ⟨b, rest⟩
          · rw [getpteStep_true_nil hv1 hk] at h1
            simp at h1
          · by_cases hb0 : b = 0
            · subst hb0
              rw [getpteStep_true_zero hv1 hk] at h1
              simp at h1
            · rw [getpteStep_true_alloc hv1 hk hb0] at h1
              simp only [Prod.mk.injEq, Option.some_inj] at h1
              obtain ⟨ht0eq, hstBeq⟩ := h1
              have hbk : b ∈ st.kfree := by
                rw [hk]
                exact List.mem_cons_self _ _
              have hbal : b % 4096 = 0 := hkal b hbk
              obtain ⟨hwv, hwpa⟩ := interior_pte_valid hbal
              have hbnt : b ∉ tables st root := hkdj b hbk
              have hbne_root : b ≠ root := by
                intro hc
                rw [hc] at hbnt
                exact hbnt (List.mem_cons_self _ _)
              have hbne_t1 : b ≠ t1x := by
                intro hc
                rw [hc] at hbnt
                exact hbnt ht1tab
              have ht0b : t0x = b := by
                rw [← ht0eq, hwpa]
              subst ht0b
              refine ⟨?_, ?_, ?_, ?_, Ne.symm hbne_t1, Ne.symm hbne_root,
                hroot_ne_t1, Or.inl ht1tab, Or.inr (List.mem_cons_self _ _)⟩
              · rw [← hstBeq]
                simp only
                rw [Mem.write_other _ _ _ _ _ _
                      (fun hc => hroot_ne_t1 hc.1),
                    Mem.fill_other _ _ _ _ _ (Ne.symm hbne_root)]
                exact hv2
              · rw [← hstBeq]
                simp only
                rw [Mem.write_other _ _ _ _ _ _
                      (fun hc => hroot_ne_t1 hc.1),
                    Mem.fill_other _ _ _ _ _ (Ne.symm hbne_root)]
                exact ht1eq
              · rw [← hstBeq]
                simp only
                rw [Mem.write_same]
                exact hwv
              · rw [← hstBeq]
                simp only
                rw [Mem.write_same]
                exact hwpa
      · rcases hk : st.kfree with _ | ⟨a, rest⟩
        · rw [getpteStep_true_nil hv2 hk] at h2
          simp at h2
        · by_cases ha0 : a = 0
          · subst ha0
            rw [getpteStep_true_zero hv2 hk] at h2
            simp at h2
          · rw [getpteStep_true_alloc hv2 hk ha0] at h2
            simp only [Prod.mk.injEq, Option.some_inj] at h2
            obtain ⟨ht1eq, hstAeq⟩ := h2
            have hak : a ∈ st.kfree := by
              rw [hk]
              exact List.mem_cons_self _ _
            have haal : a % 4096 = 0 := hkal a hak
            obtain ⟨hw2v, hw2pa⟩ := interior_pte_valid haal
            have ht1a : t1x = a := by
              rw [← ht1eq, hw2pa]
            subst ht1a
            have hant : t1x ∉ tables st root := hkdj t1x hak
            have hane_root : t1x ≠ root := by
              intro hc
              rw [hc] at hant
              exact hant (List.mem_cons_self _ _)
            have hmid : stA.mem t1x (vpn va 1) = 0 := by
              rw [← hstAeq]
              simp only
              rw [Mem.write_other _ _ _ _ _ _ (fun hc => hane_root hc.1),
                  Mem.fill_same]
            have hv1 : ¬ stA.mem t1x (vpn va 1) % 2 = 1 := by
              rw [hmid]
              norm_num
            have hstAk : stA.kfree = rest := by
              rw [← hstAeq]
            rcases hrest : rest with _ | ⟨b, rest2⟩
            · rw [getpteStep_true_nil hv1 (by rw [hstAk, hrest])] at h1
              simp at h1
            · by_cases hb0 : b = 0
              · subst hb0
                rw [getpteStep_true_zero hv1 (by rw [hstAk, hrest])] at h1
                simp at h1
              · rw [getpteStep_true_alloc hv1 (by rw [hstAk, hrest]) hb0] at h1
                simp only [Prod.mk.injEq, Option.some_inj] at h1
                obtain ⟨ht0eq, hstBeq⟩ := h1
                have hbk : b ∈ st.kfree := by
                  rw [hk, hrest]
                  exact List.mem_cons_of_mem _ (List.mem_cons_self _ _)
                have hbal : b % 4096 = 0 := hkal b hbk
                obtain ⟨hw1v, hw1pa⟩ := interior_pte_valid hbal
                have hbnt : b ∉ tables st root := hkdj b hbk
                have hbne_root : b ≠ root := by
                  intro hc
                  rw [hc] at hbnt
                  exact hbnt (List.mem_cons_self _ _)
                have habne : t1x ≠ b := by
                  intro hc
                  rw [hk, hrest] at hknd
                  rw [hc] at hknd
                  exact (List.nodup_cons.mp hknd).1 (List.mem_cons_self _ _)
                have ht0b : t0x = b := by
                  rw [← ht0eq, hw1pa]
                subst ht0b
                refine ⟨?_, ?_, ?_, ?_, habne, Ne.symm hbne_root,
                  Ne.symm hane_root, Or.inr (List.mem_cons_self _ _),
                  Or.inr (List.mem_cons_of_mem _ (List.mem_cons_self _ _))⟩
                · rw [← hstBeq]
                  simp only
                  rw [Mem.write_other _ _ _ _ _ _ (fun hc => hane_root hc.1.symm),
                      Mem.fill_other _ _ _ _ _ (Ne.symm hbne_root)]
                  rw [← hstAeq]
                  simp only
                  rw [Mem.write_same]
                  exact hw2v
                · rw [← hstBeq]
                  simp only
                  rw [Mem.write_other _ _ _ _ _ _ (fun hc => hane_root hc.1.symm),
                      Mem.fill_other _ _ _ _ _ (Ne.symm hbne_root)]
                  rw [← hstAeq]
                  simp only
                  rw [Mem.write_same]
                  exact hw2pa
                · rw [← hstBeq]
                  simp only
                  rw [Mem.write_same]
                  exact hw1v
                · rw [← hstBeq]
                  simp only
                  rw [Mem.write_same]
                  exact hw1pa

end Week3

namespace Week3

/-- A read-only walk in any state whose two interior links for `va` are in
place lands on the `vpn va 0` slot of the level-0 table. -/
theorem walk_pointer (st2 : St) (root va t0 t1 : Nat)
    (h2v : st2.mem root (vpn va 2) % 2 = 1)
    (h2pa : pteToPa (st2.mem root (vpn va 2)) = t1)
    (h1v : st2.mem t1 (vpn va 1) % 2 = 1)
    (h1pa : pteToPa (st2.mem t1 (vpn va 1)) = t0) :
    vm_getpte st2 root va false = (some (t0, vpn va 0), st2) := by
  rw [vm_getpte_false_eq_w3, h2pa, h1pa, if_pos h1v, if_pos h2v]

/-- `vm_walkaddr` through an in-place walk path evaluates the level-0 slot. -/
theorem walkaddr_of_path (st2 : St) (root va t0 t1 : Nat)
    (hva : ¬ VA_MAX < va)
    (h2v : st2.mem root (vpn va 2) % 2 = 1)
    (h2pa : pteToPa (st2.mem root (vpn va 2)) = t1)
    (h1v : st2.mem t1 (vpn va 1) % 2 = 1)
    (h1pa : pteToPa (st2.mem t1 (vpn va 1)) = t0) :
    vm_walkaddr st2 root va =
      (if st2.mem t0 (vpn va 0) % 2 ≠ 1 then 0
       else if st2.mem t0 (vpn va 0) % 16 = 1 then 0
       else pteToPa (st2.mem t0 (vpn va 0)) + va % 4096) := by
  rw [vm_walkaddr, if_neg hva, walk_pointer st2 root va t0 t1 h2v h2pa h1v h1pa]

/-- Memory reads away from the freed frame are unchanged by `pmem_free`. -/
theorem pmem_free_mem_other (st : St) (pa : Nat) (b : Bool) (x j : Nat)
    (hx : x ≠ pa) : (pmem_free st pa b).mem x j = st.mem x j := by
  cases b <;>
    simp [pmem_free, Mem.write_other_frame _ _ _ _ _ _ hx,
      Mem.fill_other _ _ _ _ _ hx]

end Week3

/-- C1: map/translate round trip of the week3 variant.  Mapping one page
`va ↦ pa` (page-aligned, in range, with `PTE_R|W|X` actually present in the
legal permission bits) into a well-formed tree: every in-page query
`va + off` then translates to `pa + off`, and after `vm_unmappages` of that
page (with or without freeing the backing frame) translation of `va` yields
the failure value 0. -/
theorem c1_map_translate_roundtrip (st : Week3.St) (root va pa perm : Nat)
    {st' : Week3.St} (hwf : Week3.WF st root)
    (hva : va % 4096 = 0) (hpa : pa % 4096 = 0)
    (hbound : va + 4095 ≤ Week3.VA_MAX)
    (hperm : perm ≤ 62) (hpe : perm % 2 = 0) (hprwx : perm % 16 ≠ 0)
    (hpd1 : pa ∉ Week3.tables st root) (hpd2 : pa ∉ st.kfree)
    (h : Week3.vm_mappages st root va pa 4096 perm = some st') :
    (∀ off, off < 4096 → Week3.vm_walkaddr st' root (va + off) = pa + off) ∧
    (∀ (freeit : Bool) (endAddr : Nat) (st'' : Week3.St),
      Week3.vm_unmappages st' root va 4096 freeit endAddr = some st'' →
      Week3.vm_walkaddr st'' root va = 0) := by
  rw [Week3.vm_mappages, if_neg (by omega),
      if_neg (by simp [perm_mask_ok hperm hpe])] at h
  have h1 : (4096 : Nat) / 4096 = 0 + 1 := by norm_num
  rw [h1, Week3.vm_mappages_loop] at h
  rcases hg : Week3.vm_getpte st root va true with ⟨r, stA⟩
  rw [hg] at h
  rcases r with _ | ⟨t, i⟩
  · simp at h
  · dsimp only at h
    rw [Week3.vm_mappages_loop] at h
    simp only [Option.some_inj] at h
    obtain ⟨hieq, t1, p2v, p2pa, p1v, p1pa, ht1t0, hrt0, hrt1, ht1src, ht0src⟩ :=
      Week3.getpte_create_spec hwf hg
    subst hieq
    set L : Nat := paToPte pa ||| perm ||| 1 with hLdef
    have hLsplit : L = paToPte pa ||| (perm + 1) := by
      rw [hLdef, Nat.or_assoc, lor_one_eq_add hpe]
    have hLv : L % 2 = 1 := by
      rw [hLsplit, construct_mod_2 (by omega)]
      omega
    have hL16 : ¬ L % 16 = 1 := by
      rw [hLsplit, construct_mod_16 (by omega)]
      omega
    have hLpa : pteToPa L = pa := by
      rw [hLsplit]
      exact pteToPa_construct hpa (by omega)
    have hmem' : st'.mem = Mem.write stA.mem t (vpn va 0) L := by
      rw [← h]
    have hm2 : ∀ x : Week3.St, x.mem = Mem.write stA.mem t (vpn va 0) L →
        x.mem root (vpn va 2) = stA.mem root (vpn va 2) := by
      intro x hx
      rw [hx]
      exact Mem.write_other_frame _ _ _ _ _ _ hrt0
    have hm1 : ∀ x : Week3.St, x.mem = Mem.write stA.mem t (vpn va 0) L →
        x.mem t1 (vpn va 1) = stA.mem t1 (vpn va 1) := by
      intro x hx
      rw [hx]
      exact Mem.write_other_frame _ _ _ _ _ _ ht1t0
    have hm0 : st'.mem t (vpn va 0) = L := by
      rw [hmem']
      exact Mem.write_same _ _ _ _
    constructor
    · intro off hoff
      have e2 : vpn (va + off) 2 = vpn va 2 := vpn_add_off hva hoff 2
      have e1 : vpn (va + off) 1 = vpn va 1 := vpn_add_off hva hoff 1
      have e0 : vpn (va + off) 0 = vpn va 0 := vpn_add_off hva hoff 0
      have hvamax : ¬ Week3.VA_MAX < va + off := by
        unfold Week3.VA_MAX at hbound ⊢
        omega
      rw [Week3.walkaddr_of_path st' root (va + off) t t1 hvamax
          (by rw [e2, hm2 st' hmem']; exact p2v)
          (by rw [e2, hm2 st' hmem']; exact p2pa)
          (by rw [e1, hm1 st' hmem']; exact p1v)
          (by rw [e1, hm1 st' hmem']; exact p1pa)]
      rw [e0, hm0]
      rw [if_neg (by simp [hLv]), if_neg hL16, hLpa]
      have : (va + off) % 4096 = off := by omega
      rw [this]
    · intro freeit endAddr st'' hu
      rw [Week3.vm_unmappages, if_neg (by omega), h1,
          Week3.vm_unmappages_loop] at hu
      rw [Week3.walk_pointer st' root va t t1
          (by rw [hm2 st' hmem']; exact p2v)
          (by rw [hm2 st' hmem']; exact p2pa)
          (by rw [hm1 st' hmem']; exact p1v)
          (by rw [hm1 st' hmem']; exact p1pa)] at hu
      dsimp only at hu
      rw [Week3.vm_unmappages_loop] at hu
      simp only [Option.some_inj] at hu
      have hpane : ∀ x, x ∈ Week3.tables st root ∨ x ∈ st.kfree → pa ≠ x := by
        intro x hx hc
        rcases hx with hx | hx
        · exact hpd1 (hc ▸ hx)
        · exact hpd2 (hc ▸ hx)
      have hparoot : pa ≠ root :=
        hpane root (Or.inl (List.mem_cons_self _ _))
      have hpat1 : pa ≠ t1 := hpane t1 ht1src
      have hpat0 : pa ≠ t := hpane t ht0src
      have hst1mem : ∀ x j, x ≠ pa →
          (if freeit then
            Week3.pmem_free st' (pteToPa (st'.mem t (vpn va 0)))
              (decide (pteToPa (st'.mem t (vpn va 0)) <
                endAddr / 4096 * 4096 + Week3.KERNEL_PAGES * 4096))
           else st').mem x j = st'.mem x j := by
        intro x j hx
        split
        · rw [hm0, hLpa]
          exact Week3.pmem_free_mem_other _ _ _ _ _ hx
        · rfl
      have hmem'' : ∀ x j, x ≠ pa → ¬ (x = t ∧ j = vpn va 0) →
          st''.mem x j = st'.mem x j := by
        intro x j hx hxj
        rw [← hu]
        simp only
        rw [Mem.write_other _ _ _ _ _ _ hxj]
        exact hst1mem x j hx
      have hleaf0 : st''.mem t (vpn va 0) = 0 := by
        rw [← hu]
        simp only
        exact Mem.write_same _ _ _ _
      have hvamax : ¬ Week3.VA_MAX < va := by
        unfold Week3.VA_MAX at hbound ⊢
        omega
      rw [Week3.walkaddr_of_path st'' root va t t1 hvamax
          (by rw [hmem'' root _ (Ne.symm hparoot)
                (fun hc => hrt0 hc.1), hm2 st' hmem']
              exact p2v)
          (by rw [hmem'' root _ (Ne.symm hparoot)
                (fun hc => hrt0 hc.1), hm2 st' hmem']
              exact p2pa)
          (by rw [hmem'' t1 _ (Ne.symm hpat1)
                (fun hc => ht1t0 hc.1), hm1 st' hmem']
              exact p1v)
          (by rw [hmem'' t1 _ (Ne.symm hpat1)
                (fun hc => ht1t0 hc.1), hm1 st' hmem']
              exact p1pa)]
      rw [hleaf0]
      norm_num

/-- The empty week3 root at 4096 with two kernel frames available for
interior tables. -/
def w3C1St : Week3.St :=
  { mem := zeroMem, kfree := [8192, 12288], ufree := [],
    kused := 0, uused := 0 }

set_option maxRecDepth 8000 in
/-- C1 witness: mapping `va = 20480 ↦ pa = 0x80400000` with `PTE_R` in the
empty tree, translation of `va + 5` gives `pa + 5`; unmapping the page (with
`freeit`) makes translation of `va` give 0. -/
theorem c1_map_translate_witness :
    Week3.vm_walkaddr
        ((Week3.vm_mappages w3C1St 4096 20480 2151677952 4096 2).getD w3C1St)
        4096 20485 = 2151677957 ∧
    Week3.vm_walkaddr
        ((Week3.vm_unmappages
            ((Week3.vm_mappages w3C1St 4096 20480 2151677952 4096 2).getD w3C1St)
            4096 20480 4096 true 0).getD w3C1St)
        4096 20480 = 0 := by
  have h := c1_map_translate_roundtrip w3C1St 4096 20480 2151677952 2
    ⟨by decide, by decide, by decide, by decide⟩
    (by decide) (by decide) (by decide) (by decide) (by decide) (by decide)
    (by decide) (by decide)
    (rfl : Week3.vm_mappages w3C1St 4096 20480 2151677952 4096 2 =
      some ((Week3.vm_mappages w3C1St 4096 20480 2151677952 4096 2).getD w3C1St))
  constructor
  · have := h.1 5 (by norm_num)
    simpa using this
  · exact h.2 true 0 _
      (rfl :
        Week3.vm_unmappages
          ((Week3.vm_mappages w3C1St 4096 20480 2151677952 4096 2).getD w3C1St)
          4096 20480 4096 true 0 =
        some ((Week3.vm_unmappages
          ((Week3.vm_mappages w3C1St 4096 20480 2151677952 4096 2).getD w3C1St)
          4096 20480 4096 true 0).getD w3C1St))

/-- C4 counterexample: the 系统调用 `vm_mappages` called on a page whose
resulting leaf entry is already valid does not log-and-overwrite — it panics
(`"vm_mappages: virtual address already mapped"`), aborting the call. -/
theorem c4_remap_counterexample :
    SC.vm_mappages scUserMappedSt 4096 0 20480 4096 23 = none := rfl

/-- C4 (amended): the remap policy differs between variants.  The week3
`vm_mappages` only logs the conflict and overwrites: whenever the creating
walk succeeds (already-valid leaf or not) the call completes and the new
translation is installed.  The 系统调用 `vm_mappages` instead panics as soon
as the resulting leaf entry is valid. -/
theorem c4_remap_policy (st : Week3.St) (root va pa perm : Nat)
    {ptr : Nat × Nat} {stA : Week3.St}
    (hwf : Week3.WF st root)
    (hva : va % 4096 = 0) (hpa : pa % 4096 = 0)
    (hbound : va + 4095 ≤ Week3.VA_MAX)
    (hperm : perm ≤ 62) (hpe : perm % 2 = 0) (hprwx : perm % 16 ≠ 0)
    (hg : Week3.vm_getpte st root va true = (some ptr, stA))
    (stc : SC.St) (pgtblc vac pac permc : Nat) {ptrc : Nat × Nat}
    {stAc : SC.St}
    (hvac : vac % 4096 = 0) (hpac : pac % 4096 = 0)
    (hboundc : vac + 4096 ≤ SC.VA_MAX)
    (hgc : SC.vm_getpte stc pgtblc vac true = some (some ptrc, stAc))
    (hvalidc : stAc.mem ptrc.1 ptrc.2 % 2 = 1) :
    (∃ st', Week3.vm_mappages st root va pa 4096 perm = some st' ∧
      Week3.vm_walkaddr st' root va = pa) ∧
    SC.vm_mappages stc pgtblc vac pac 4096 permc = none := by
  constructor
  · rcases ptr with ⟨t, i⟩
    obtain ⟨hieq, t1, p2v, p2pa, p1v, p1pa, ht1t0, hrt0, hrt1, -, -⟩ :=
      Week3.getpte_create_spec hwf hg
    subst hieq
    set L : Nat := paToPte pa ||| perm ||| 1 with hLdef
    refine ⟨{ stA with mem := Mem.write stA.mem t (vpn va 0) L }, ?_, ?_⟩
    · rw [Week3.vm_mappages, if_neg (by omega),
          if_neg (by simp [perm_mask_ok hperm hpe])]
      have h1 : (4096 : Nat) / 4096 = 0 + 1 := by norm_num
      rw [h1, Week3.vm_mappages_loop, hg]
      dsimp only
      rw [Week3.vm_mappages_loop]
    · have hLsplit : L = paToPte pa ||| (perm + 1) := by
        rw [hLdef, Nat.or_assoc, lor_one_eq_add hpe]
      have hvamax : ¬ Week3.VA_MAX < va := by
        unfold Week3.VA_MAX at hbound ⊢
        omega
      rw [Week3.walkaddr_of_path _ root va t t1 hvamax
          (by simp only [Mem.write_other_frame _ _ _ _ _ _ hrt0]; exact p2v)
          (by simp only [Mem.write_other_frame _ _ _ _ _ _ hrt0]; exact p2pa)
          (by simp only [Mem.write_other_frame _ _ _ _ _ _ ht1t0]; exact p1v)
          (by simp only [Mem.write_other_frame _ _ _ _ _ _ ht1t0]; exact p1pa)]
      simp only [Mem.write_same]
      rw [if_neg (by rw [hLsplit, construct_mod_2 (by omega)]; omega),
          if_neg (by rw [hLsplit, construct_mod_16 (by omega)]; omega),
          hLsplit, pteToPa_construct hpa (by omega)]
      omega
  · rw [SC.vm_mappages, if_neg (by omega), if_neg (by omega),
        if_neg (by unfold SC.VA_MAX at hboundc ⊢; omega)]
    have hstart : vac / 4096 * 4096 = vac := by omega
    have hn : ((vac + 4096 - 1) / 4096 * 4096 - vac) / 4096 + 1 =
        0 + 1 := by omega
    rw [hstart, hn, SC.vm_mappages_loop, hgc]
    rcases ptrc with ⟨tc, ic⟩
    simp only at hvalidc
    dsimp only
    rw [if_pos hvalidc]

/-- The week3 state of `w3C1St` after the first mapping of `va = 20480`:
its leaf entry for that page is already valid. -/
def w3RemapSt : Week3.St :=
  (Week3.vm_mappages w3C1St 4096 20480 2151677952 4096 2).getD w3C1St

set_option maxRecDepth 8000 in
/-- C4 witness: remapping `va = 20480` in the week3 tree completes (log and
overwrite), while the 系统调用 `vm_mappages` on the already-mapped `va = 0`
panics. -/
theorem c4_remap_policy_witness :
    Week3.vm_mappages w3RemapSt 4096 20480 2151682048 4096 2 ≠ none ∧
    SC.vm_mappages scUserMappedSt 4096 0 20480 4096 23 = none := by
  have h := c4_remap_policy w3RemapSt 4096 20480 2151682048 2
    ⟨by decide, by decide, by decide, by decide⟩
    (by decide) (by decide) (by decide) (by decide) (by decide) (by decide)
    (rfl : Week3.vm_getpte w3RemapSt 4096 20480 true =
      (some (12288, 5), w3RemapSt))
    scUserMappedSt 4096 0 20480 23
    (by decide) (by decide) (by decide)
    (rfl : SC.vm_getpte scUserMappedSt 4096 0 true =
      some (some (12288, 0), scUserMappedSt))
    (by decide)
  refine ⟨?_, h.2⟩
  obtain ⟨st', heq, -⟩ := h.1
  rw [heq]
  simp

namespace SC

/-- `PTE_TO_PA` of the valid interior entries of table `t` among indices
`is`. -/
def childIdx (st : St) (t : Nat) (is : List Nat) : List Nat :=
  is.filterMap fun i =>
    if st.mem t i % 2 = 1 ∧ st.mem t i % 16 / 2 = 0
      then some (pteToPa (st.mem t i)) else none

/-- The child tables of `t` (all 512 entries). -/
def childTables (st : St) (t : Nat) : List Nat :=
  childIdx st t (List.range 512)

/-- `PTE_TO_PA` of the valid user-leaf entries of table `t` among `is`. -/
def uleavesIdx (st : St) (t : Nat) (is : List Nat) : List Nat :=
  is.filterMap fun i =>
    if st.mem t i % 2 = 1 ∧ ¬ st.mem t i % 16 / 2 = 0 ∧ st.mem t i / 16 % 2 = 1
      then some (pteToPa (st.mem t i)) else none

/-- The user-leaf frames of table `t` (all 512 entries). -/
def uleavesOf (st : St) (t : Nat) : List Nat :=
  uleavesIdx st t (List.range 512)

theorem childIdx_congr {st st' : St} {t : Nat} {is : List Nat}
    (h : ∀ i ∈ is, st'.mem t i = st.mem t i) :
    childIdx st' t is = childIdx st t is := by
  unfold childIdx
  induction is with
  | nil => rfl
  | cons i rest ih =>
    rw [List.filterMap_cons, List.filterMap_cons,
        h i (List.mem_cons_self _ _),
        ih (fun j hj => h j (List.mem_cons_of_mem _ hj))]

theorem uleavesIdx_congr {st st' : St} {t : Nat} {is : List Nat}
    (h : ∀ i ∈ is, st'.mem t i = st.mem t i) :
    uleavesIdx st' t is = uleavesIdx st t is := by
  unfold uleavesIdx
  induction is with
  | nil => rfl
  | cons i rest ih =>
    rw [List.filterMap_cons, List.filterMap_cons,
        h i (List.mem_cons_self _ _),
        ih (fun j hj => h j (List.mem_cons_of_mem _ hj))]

/-- `pmem_free` to the user region with its checks discharged. -/
theorem pmem_free_false_ok {st : St} {page : Nat} (hal : page % 4096 = 0)
    (hlo : st.user.lo ≤ page) (hhi : page < st.user.hi) :
    pmem_free st page false = some
      { mem := Mem.write (Mem.fill st.mem page 0) page 0 (headAddr st.user.list),
        kern := st.kern,
        user := { st.user with list := page :: st.user.list, allocable := st.user.allocable + 1 } } := by
  simp only [pmem_free, Bool.false_eq_true, if_false]
  rw [if_neg (by omega), if_neg (by omega)]

/-- `pmem_free` to the kernel region with its checks discharged. -/
theorem pmem_free_true_ok {st : St} {page : Nat} (hal : page % 4096 = 0)
    (hlo : st.kern.lo ≤ page) (hhi : page < st.kern.hi) :
    pmem_free st page true = some
      { mem := Mem.write (Mem.fill st.mem page 0) page 0 (headAddr st.kern.list),
        kern := { st.kern with list := page :: st.kern.list, allocable := st.kern.allocable + 1 },
        user := st.user } := by
  simp only [pmem_free, if_true]
  rw [if_neg (by omega), if_neg (by omega)]

theorem destroyLoop_nil (recur : St → Nat → Option St) (pgtbl : Nat)
    (st : St) : destroyLoop recur pgtbl st [] = some st := rfl

theorem destroyLoop_cons (recur : St → Nat → Option St) (pgtbl : Nat)
    (st : St) (i : Nat) (rest : List Nat) :
    destroyLoop recur pgtbl st (i :: rest) =
      (if st.mem pgtbl i % 2 ≠ 1 then destroyLoop recur pgtbl st rest
       else if st.mem pgtbl i % 16 / 2 = 0 then
         match recur st (pteToPa (st.mem pgtbl i)) with
         | none => none
         | some st1 =>
           match pmem_free st1 (pteToPa (st.mem pgtbl i)) true with
           | none => none
           | some st2 => destroyLoop recur pgtbl st2 rest
       else
         match (if st.mem pgtbl i / 16 % 2 = 1
                then pmem_free st (pteToPa (st.mem pgtbl i)) false
                else some st) with
         | none => none
         | some st1 =>
           destroyLoop recur pgtbl
             { st1 with mem := Mem.write st1.mem pgtbl i (st1.mem pgtbl i - st1.mem pgtbl i % 2) }
             rest) := rfl

/-- The level-1 entry loop of `destroy_pgtbl` over a bottom (leaf-holding)
table: the user-leaf frames among the processed indices are pushed on the
user free list exactly once each, nothing reaches the kernel list, and
memory outside the table page and those frames is untouched. -/
theorem destroyLoopBottom (tbl : Nat) : ∀ (is : List Nat) (st : St),
    is.Nodup → (∀ i ∈ is, st.mem tbl i % 2 = 1 → ¬ st.mem tbl i % 16 / 2 = 0) →
    (uleavesIdx st tbl is).Nodup →
    tbl ∉ uleavesIdx st tbl is →
    (∀ f ∈ uleavesIdx st tbl is, st.user.lo ≤ f ∧ f < st.user.hi) →
    ∃ st', destroyLoop (destroyPgtbl 0) tbl st is = some st' ∧
      st'.kern = st.kern ∧
      st'.user.lo = st.user.lo ∧ st'.user.hi = st.user.hi ∧
      (∀ f, st'.user.list.count f =
        st.user.list.count f + (uleavesIdx st tbl is).count f) ∧
      st'.user.allocable = st.user.allocable + (uleavesIdx st tbl is).length ∧
      (∀ x, x ≠ tbl → x ∉ uleavesIdx st tbl is →
        ∀ j, st'.mem x j = st.mem x j) := by
  intro is
  induction is with
  | nil =>
    intro st _ _ _ _ _
    exact ⟨st, rfl, rfl, rfl, rfl, by simp [uleavesIdx], by simp [uleavesIdx],
      fun x _ _ j => rfl⟩
  | cons i rest ih =>
    intro st hnd hshape hund hunt hub
    have hndr := (List.nodup_cons.mp hnd).2
    have hir : i ∉ rest := (List.nodup_cons.mp hnd).1
    by_cases hv : st.mem tbl i % 2 = 1
    · have hleaf : ¬ st.mem tbl i % 16 / 2 = 0 :=
        hshape i (List.mem_cons_self _ _) hv
      have hulv_cons : ∀ (s2 : St), s2.mem tbl i = st.mem tbl i →
          (st.mem tbl i / 16 % 2 = 1 →
            uleavesIdx st tbl (i :: rest) =
              pteToPa (st.mem tbl i) :: uleavesIdx st tbl rest) ∧
          (¬ st.mem tbl i / 16 % 2 = 1 →
            uleavesIdx st tbl (i :: rest) = uleavesIdx st tbl rest) := by
        intro s2 _
        constructor
        · intro hu
          unfold uleavesIdx
          rw [List.filterMap_cons]
          rw [if_pos ⟨hv, hleaf, hu⟩]
        · intro hu
          unfold uleavesIdx
          rw [List.filterMap_cons]
          rw [if_neg (by
            intro hc
            exact hu hc.2.2)]
      by_cases hu : st.mem tbl i / 16 % 2 = 1
      · -- user leaf: freed to the user region, then the valid bit cleared
        have hcons := (hulv_cons st rfl).1 hu
        have hpamem : pteToPa (st.mem tbl i) ∈ uleavesIdx st tbl (i :: rest) := by
          rw [hcons]
          exact List.mem_cons_self _ _
        obtain ⟨hlo, hhi⟩ := hub _ hpamem
        have hfree := @pmem_free_false_ok st (pteToPa (st.mem tbl i))
          (pteToPa_aligned (st.mem tbl i)) hlo hhi
        set pa := pteToPa (st.mem tbl i) with hpadef
        set stF : St :=
          { mem := Mem.write (Mem.fill st.mem pa 0) pa 0 (headAddr st.user.list),
            kern := st.kern,
            user := { st.user with list := pa :: st.user.list, allocable := st.user.allocable + 1 } } with hstFdef
        have hpane_tbl : pa ≠ tbl := by
          intro hc
          exact hunt (hc ▸ hpamem)
        have hstF_tbl : ∀ j, stF.mem tbl j = st.mem tbl j := by
          intro j
          rw [hstFdef]
          simp only
          rw [Mem.write_other_frame _ _ _ _ _ _ (Ne.symm hpane_tbl),
              Mem.fill_other _ _ _ _ _ (Ne.symm hpane_tbl)]
        set st2 : St :=
          { stF with mem := Mem.write stF.mem tbl i (stF.mem tbl i - stF.mem tbl i % 2) } with hst2def
        have hst2_rest : ∀ j, j ≠ i → st2.mem tbl j = st.mem tbl j := by
          intro j hj
          rw [hst2def]
          simp only
          rw [Mem.write_other _ _ _ _ _ _ (fun hc => hj hc.2)]
          exact hstF_tbl j
        have hst2_other : ∀ x, x ≠ tbl → x ≠ pa → ∀ j,
            st2.mem x j = st.mem x j := by
          intro x hx hxpa j
          rw [hst2def]
          simp only
          rw [Mem.write_other_frame _ _ _ _ _ _ hx]
          rw [Mem.write_other_frame _ _ _ _ _ _ hxpa,
              Mem.fill_other _ _ _ _ _ hxpa]
        have hulv2 : uleavesIdx st2 tbl rest = uleavesIdx st tbl rest :=
          uleavesIdx_congr (fun j hj => hst2_rest j (fun hc => hir (hc ▸ hj)))
        have hndrest : (uleavesIdx st tbl rest).Nodup := by
          rw [hcons] at hund
          exact (List.nodup_cons.mp hund).2
        have hpanotrest : pa ∉ uleavesIdx st tbl rest := by
          rw [hcons] at hund
          exact (List.nodup_cons.mp hund).1
        obtain ⟨st', hrun, hk, hlo', hhi', hcount, halloc, hmem⟩ :=
          ih st2 hndr
            (fun j hj hvj => by
              rw [hst2_rest j (fun hc => hir (hc ▸ hj))] at hvj ⊢
              exact hshape j (List.mem_cons_of_mem _ hj) hvj)
            (by rw [hulv2]; exact hndrest)
            (by rw [hulv2]
                intro hc
                exact hunt (by rw [hcons]; exact List.mem_cons_of_mem _ hc))
            (by rw [hulv2]
                intro f hf
                have := hub f (by rw [hcons]; exact List.mem_cons_of_mem _ hf)
                exact this)
        refine ⟨st', ?_, ?_, ?_, ?_, ?_, ?_, ?_⟩
        · rw [destroyLoop_cons]
          rw [if_neg (by omega), if_neg hleaf, if_pos hu, ← hpadef, hfree]
          exact hrun
        · rw [hk]
        · rw [hlo']
        · rw [hhi']
        · intro f
          rw [hcount, hcons, hulv2]
          simp [List.count_cons]
          omega
        · rw [halloc, hcons, hulv2]
          simp
          omega
        · intro x hx hxul j
          rw [hmem x hx (by
              rw [hulv2]
              intro hc
              exact hxul (by rw [hcons]; exact List.mem_cons_of_mem _ hc)) j]
          exact hst2_other x hx
            (fun hc => hxul (hc ▸ hpamem)) j
      · -- non-user leaf: only the valid bit is cleared
        have hcons := (hulv_cons st rfl).2 hu
        set st2 : St :=
          { st with mem := Mem.write st.mem tbl i (st.mem tbl i - st.mem tbl i % 2) } with hst2def
        have hst2_rest : ∀ j, j ≠ i → st2.mem tbl j = st.mem tbl j := by
          intro j hj
          rw [hst2def]
          simp only
          rw [Mem.write_other _ _ _ _ _ _ (fun hc => hj hc.2)]
        have hst2_other : ∀ x, x ≠ tbl → ∀ j, st2.mem x j = st.mem x j := by
          intro x hx j
          rw [hst2def]
          simp only
          rw [Mem.write_other_frame _ _ _ _ _ _ hx]
        have hulv2 : uleavesIdx st2 tbl rest = uleavesIdx st tbl rest :=
          uleavesIdx_congr (fun j hj => hst2_rest j (fun hc => hir (hc ▸ hj)))
        obtain ⟨st', hrun, hk, hlo', hhi', hcount, halloc, hmem⟩ :=
          ih st2 hndr
            (fun j hj hvj => by
              rw [hst2_rest j (fun hc => hir (hc ▸ hj))] at hvj ⊢
              exact hshape j (List.mem_cons_of_mem _ hj) hvj)
            (by rw [hulv2, ← hcons]; exact hund)
            (by rw [hulv2, ← hcons]; exact hunt)
            (by rw [hulv2, ← hcons]; exact hub)
        refine ⟨st', ?_, hk, hlo', hhi', ?_, ?_, ?_⟩
        · rw [destroyLoop_cons]
          rw [if_neg (by omega), if_neg hleaf, if_neg hu]
          exact hrun
        · intro f
          rw [hcount, hcons, hulv2]
        · rw [halloc, hcons, hulv2]
        · intro x hx hxul j
          rw [hmem x hx (by rw [hulv2, ← hcons]; exact hxul) j]
          exact hst2_other x hx j
    · -- invalid entry: skipped
      have hcons : uleavesIdx st tbl (i :: rest) = uleavesIdx st tbl rest := by
        unfold uleavesIdx
        rw [List.filterMap_cons, if_neg (by intro hc; exact hv hc.1)]
      obtain ⟨st', hrun, hk, hlo', hhi', hcount, halloc, hmem⟩ :=
        ih st hndr
          (fun j hj hvj => hshape j (List.mem_cons_of_mem _ hj) hvj)
          (by rw [← hcons]; exact hund)
          (by rw [← hcons]; exact hunt)
          (by rw [← hcons]; exact hub)
      refine ⟨st', ?_, hk, hlo', hhi', ?_, ?_, ?_⟩
      · rw [destroyLoop_cons]
        rw [if_pos (by omega)]
        exact hrun
      · intro f
        rw [hcount, hcons]
      · rw [halloc, hcons]
      · intro x hx hxul j
        exact hmem x hx (by rw [← hcons]; exact hxul) j

end SC

namespace SC

theorem destroyPgtbl_one (st : St) (pgtbl : Nat) :
    destroyPgtbl 1 st pgtbl =
      if pgtbl = 0 then some st
      else destroyLoop (destroyPgtbl 0) pgtbl st (List.range 512) := rfl

theorem destroyPgtbl_two (st : St) (pgtbl : Nat) :
    destroyPgtbl 2 st pgtbl =
      if pgtbl = 0 then some st
      else destroyLoop (destroyPgtbl 1) pgtbl st (List.range 512) := rfl

theorem destroyPgtbl_three (st : St) (pgtbl : Nat) :
    destroyPgtbl 3 st pgtbl =
      if pgtbl = 0 then some st
      else destroyLoop (destroyPgtbl 2) pgtbl st (List.range 512) := rfl

/-- Destroying one bottom table frees exactly its user-leaf frames, each to
the user region. -/
theorem destroyBottomTable {st : St} {tbl : Nat} (htne : tbl ≠ 0)
    (hshape : ∀ i ∈ List.range 512,
      st.mem tbl i % 2 = 1 → ¬ st.mem tbl i % 16 / 2 = 0)
    (hnd : (uleavesOf st tbl).Nodup)
    (hnt : tbl ∉ uleavesOf st tbl)
    (hb : ∀ f ∈ uleavesOf st tbl, st.user.lo ≤ f ∧ f < st.user.hi) :
    ∃ st', destroyPgtbl 1 st tbl = some st' ∧
      st'.kern = st.kern ∧
      st'.user.lo = st.user.lo ∧ st'.user.hi = st.user.hi ∧
      (∀ f, st'.user.list.count f =
        st.user.list.count f + (uleavesOf st tbl).count f) ∧
      st'.user.allocable = st.user.allocable + (uleavesOf st tbl).length ∧
      (∀ x, x ≠ tbl → x ∉ uleavesOf st tbl →
        ∀ j, st'.mem x j = st.mem x j) := by
  obtain ⟨st', hrun, hrest⟩ :=
    destroyLoopBottom tbl (List.range 512) st (List.nodup_range _) hshape
      hnd hnt hb
  refine ⟨st', ?_, hrest⟩
  rw [destroyPgtbl_one, if_neg htne]
  exact hrun

/-- Peeling one processed child (and its leaves) off the aggregated
distinctness list. -/
theorem nodup_peel {tbl c : Nat} {C U1 U2 : List Nat}
    (h : (tbl :: (c :: C) ++ (U1 ++ U2)).Nodup) :
    (tbl :: C ++ U2).Nodup ∧ tbl ≠ c ∧ tbl ∉ U1 ∧ tbl ∉ C ∧ tbl ∉ U2 ∧
    c ∉ C ∧ c ∉ U1 ∧ c ∉ U2 ∧ U1.Nodup ∧ C.Nodup ∧
    (∀ x ∈ C, x ∉ U1) ∧ (∀ x ∈ U1, x ∉ U2) := by
  simp only [List.cons_append, List.nodup_cons, List.nodup_append,
    List.mem_append, List.mem_cons, List.disjoint_left] at h ⊢
  obtain ⟨h1, h2, h3, ⟨h4, h5, h6⟩, h7⟩ := h
  refine ⟨⟨?_, h3, h5, fun a ha hu => h7 ha (Or.inr hu)⟩,
    fun hc => h1 (Or.inl hc),
    fun hc => h1 (Or.inr (Or.inr (Or.inl hc))),
    fun hc => h1 (Or.inr (Or.inl hc)),
    fun hc => h1 (Or.inr (Or.inr (Or.inr hc))),
    fun hc => h2 (Or.inl hc),
    fun hc => h2 (Or.inr (Or.inl hc)),
    fun hc => h2 (Or.inr (Or.inr hc)),
    h4, h3,
    fun x hx hu => h7 hx (Or.inl hu),
    h6⟩
  intro hc
  rcases hc with hc | hc
  · exact h1 (Or.inr (Or.inl hc))
  · exact h1 (Or.inr (Or.inr (Or.inr hc)))

end SC

namespace SC

theorem flatMap_congr {L : List Nat} {f g : Nat → List Nat}
    (h : ∀ t ∈ L, f t = g t) : L.flatMap f = L.flatMap g := by
  induction L with
  | nil => rfl
  | cons t rest ih =>
    rw [List.flatMap_cons, List.flatMap_cons, h t (List.mem_cons_self _ _),
        ih (fun x hx => h x (List.mem_cons_of_mem _ hx))]

/-- The level-2 entry loop of `destroy_pgtbl` over a mid table: every child
(bottom) table is destroyed and its frame freed once to the kernel region;
every user-leaf frame below goes once to the user region. -/
theorem destroyLoopMid (tbl : Nat) : ∀ (is : List Nat) (st : St),
    is.Nodup →
    (∀ i ∈ is, st.mem tbl i % 2 = 1 → st.mem tbl i % 16 / 2 = 0) →
    (∀ t ∈ childIdx st tbl is, t ≠ 0 ∧ st.kern.lo ≤ t ∧ t < st.kern.hi ∧
      ∀ i ∈ List.range 512, st.mem t i % 2 = 1 → ¬ st.mem t i % 16 / 2 = 0) →
    (tbl :: childIdx st tbl is ++
      (childIdx st tbl is).flatMap (uleavesOf st)).Nodup →
    (∀ f ∈ (childIdx st tbl is).flatMap (uleavesOf st),
      st.user.lo ≤ f ∧ f < st.user.hi) →
    ∃ st', destroyLoop (destroyPgtbl 1) tbl st is = some st' ∧
      st'.kern.lo = st.kern.lo ∧ st'.kern.hi = st.kern.hi ∧
      st'.user.lo = st.user.lo ∧ st'.user.hi = st.user.hi ∧
      (∀ f, st'.kern.list.count f =
        st.kern.list.count f + (childIdx st tbl is).count f) ∧
      st'.kern.allocable = st.kern.allocable + (childIdx st tbl is).length ∧
      (∀ f, st'.user.list.count f = st.user.list.count f +
        ((childIdx st tbl is).flatMap (uleavesOf st)).count f) ∧
      st'.user.allocable = st.user.allocable +
        ((childIdx st tbl is).flatMap (uleavesOf st)).length ∧
      (∀ x, x ≠ tbl → x ∉ childIdx st tbl is →
        x ∉ (childIdx st tbl is).flatMap (uleavesOf st) →
        ∀ j, st'.mem x j = st.mem x j) := by
  intro is
  induction is with
  | nil =>
    intro st _ _ _ _ _
    exact ⟨st, rfl, rfl, rfl, rfl, rfl, (by simp [childIdx]),
      (by simp [childIdx]), (by simp [childIdx]), (by simp [childIdx]),
      fun x _ _ _ j => rfl⟩
  | cons i rest ih =>
    intro st hnd his hch hbig hub
    have hndr := (List.nodup_cons.mp hnd).2
    have hir : i ∉ rest := (List.nodup_cons.mp hnd).1
    by_cases hv : st.mem tbl i % 2 = 1
    · have hint : st.mem tbl i % 16 / 2 = 0 :=
        his i (List.mem_cons_self _ _) hv
      have hccons : childIdx st tbl (i :: rest) =
          pteToPa (st.mem tbl i) :: childIdx st tbl rest := by
        unfold childIdx
        rw [List.filterMap_cons, if_pos ⟨hv, hint⟩]
      rw [hccons, List.flatMap_cons] at hbig hub
      obtain ⟨hbig', htc, htU1, htC, htU2, hcC, hcU1, hcU2, hU1nd, hCnd,
        hCU1, hU1U2⟩ := nodup_peel hbig
      obtain ⟨hc0, hclo, hchi, hcshape⟩ :=
        hch _ (by rw [hccons]; exact List.mem_cons_self _ _)
      obtain ⟨stB, hBrun, hBkern, hBulo, hBuhi, hBucount, hBualloc, hBmem⟩ :=
        destroyBottomTable hc0 hcshape hU1nd hcU1
          (fun f hf => hub f (List.mem_append.mpr (Or.inl hf)))
      have hfree := @pmem_free_true_ok stB (pteToPa (st.mem tbl i))
        (pteToPa_aligned (st.mem tbl i))
        (by rw [hBkern]; exact hclo) (by rw [hBkern]; exact hchi)
      have hF_tbl : ∀ j,
          (Mem.write (Mem.fill stB.mem (pteToPa (st.mem tbl i)) 0)
            (pteToPa (st.mem tbl i)) 0 (headAddr stB.kern.list)) tbl j =
          st.mem tbl j := by
        intro j
        rw [Mem.write_other_frame _ _ _ _ _ _ htc,
            Mem.fill_other _ _ _ _ _ htc]
        exact hBmem tbl htc htU1 j
      have hF_other : ∀ x, x ≠ pteToPa (st.mem tbl i) →
          x ∉ uleavesOf st (pteToPa (st.mem tbl i)) → ∀ j,
          (Mem.write (Mem.fill stB.mem (pteToPa (st.mem tbl i)) 0)
            (pteToPa (st.mem tbl i)) 0 (headAddr stB.kern.list)) x j =
          st.mem x j := by
        intro x hx hxu j
        rw [Mem.write_other_frame _ _ _ _ _ _ hx,
            Mem.fill_other _ _ _ _ _ hx]
        exact hBmem x hx hxu j
      set stF : St :=
        { mem := Mem.write (Mem.fill stB.mem (pteToPa (st.mem tbl i)) 0) (pteToPa (st.mem tbl i)) 0 (headAddr stB.kern.list),
          kern := { stB.kern with list := pteToPa (st.mem tbl i) :: stB.kern.list, allocable := stB.kern.allocable + 1 },
          user := stB.user } with hstFdef
      have hFs_tbl : ∀ j, stF.mem tbl j = st.mem tbl j := hF_tbl
      have hFs_other : ∀ x, x ≠ pteToPa (st.mem tbl i) →
          x ∉ uleavesOf st (pteToPa (st.mem tbl i)) → ∀ j,
          stF.mem x j = st.mem x j := hF_other
      have hchild2 : childIdx stF tbl rest = childIdx st tbl rest :=
        childIdx_congr (fun j _ => hF_tbl j)
      have hulv2 : ∀ t ∈ childIdx st tbl rest,
          uleavesOf stF t = uleavesOf st t := by
        intro t ht
        refine uleavesIdx_congr (fun j _ => ?_)
        refine hF_other t (fun hc => hcC (hc ▸ ht)) (hCU1 t ht) j
      have hflat2 : (childIdx stF tbl rest).flatMap (uleavesOf stF) =
          (childIdx st tbl rest).flatMap (uleavesOf st) := by
        rw [hchild2]
        exact flatMap_congr hulv2
      obtain ⟨st', hrun, hklo, hkhi, hulo, huhi, hkcount, hkalloc, hucount,
        hualloc, hmem⟩ :=
        ih stF hndr
          (fun j hj hvj => by
            rw [hFs_tbl j] at hvj ⊢
            exact his j (List.mem_cons_of_mem _ hj) hvj)
          (by
            rw [hchild2]
            intro t ht
            obtain ⟨ht0, htlo, hthi, htshape⟩ :=
              hch t (by rw [hccons]; exact List.mem_cons_of_mem _ ht)
            refine ⟨ht0, ?_, ?_, ?_⟩
            · rw [hstFdef]
              simp only
              rw [hBkern]
              exact htlo
            · rw [hstFdef]
              simp only
              rw [hBkern]
              exact hthi
            · intro ii hii hvii
              rw [hFs_other t (fun hc => hcC (hc ▸ ht)) (hCU1 t ht) ii]
                at hvii ⊢
              exact htshape ii hii hvii)
          (by rw [hflat2, hchild2]; exact hbig')
          (by
            rw [hflat2]
            intro f hf
            have := hub f (List.mem_append.mpr (Or.inr hf))
            rw [hstFdef]
            simp only
            rw [hBulo, hBuhi]
            exact this)
      refine ⟨st', ?_, ?_, ?_, ?_, ?_, ?_, ?_, ?_, ?_, ?_⟩
      · rw [destroyLoop_cons]
        rw [if_neg (by omega), if_pos hint, hBrun]
        dsimp only
        rw [hfree]
        exact hrun
      · rw [hklo, hstFdef]
        simp only
        rw [hBkern]
      · rw [hkhi, hstFdef]
        simp only
        rw [hBkern]
      · rw [hulo, hstFdef]
        simp only
        rw [hBulo]
      · rw [huhi, hstFdef]
        simp only
        rw [hBuhi]
      · intro f
        rw [hkcount, hchild2, hccons]
        have : stF.kern.list = pteToPa (st.mem tbl i) :: st.kern.list := by
          rw [hstFdef]
          simp only
          rw [hBkern]
        rw [this, List.count_cons]
        simp [List.count_cons]
        omega
      · rw [hkalloc, hchild2, hccons]
        have : stF.kern.allocable = st.kern.allocable + 1 := by
          rw [hstFdef]
          simp only
          rw [hBkern]
        rw [this]
        simp
        omega
      · intro f
        rw [hucount, hflat2, hccons, List.flatMap_cons, List.count_append]
        have : stF.user.list = stB.user.list := by
          rw [hstFdef]
        rw [this, hBucount f]
        omega
      · rw [hualloc, hflat2, hccons, List.flatMap_cons, List.length_append]
        have : stF.user.allocable = stB.user.allocable := by
          rw [hstFdef]
        rw [this, hBualloc]
        omega
      · intro x hx hxc hxu j
        rw [hccons] at hxc
        rw [hccons, List.flatMap_cons] at hxu
        have hxnc : x ≠ pteToPa (st.mem tbl i) :=
          fun hc => hxc (hc ▸ List.mem_cons_self _ _)
        have hxC : x ∉ childIdx st tbl rest :=
          fun hc => hxc (List.mem_cons_of_mem _ hc)
        have hxU1 : x ∉ uleavesOf st (pteToPa (st.mem tbl i)) :=
          fun hc => hxu (List.mem_append.mpr (Or.inl hc))
        have hxU2 : x ∉ (childIdx st tbl rest).flatMap (uleavesOf st) :=
          fun hc => hxu (List.mem_append.mpr (Or.inr hc))
        rw [hmem x hx (by rw [hchild2]; exact hxC)
            (by rw [hflat2]; exact hxU2) j]
        exact hFs_other x hxnc hxU1 j
    · have hccons : childIdx st tbl (i :: rest) = childIdx st tbl rest := by
        unfold childIdx
        rw [List.filterMap_cons, if_neg (by intro hc; exact hv hc.1)]
      rw [hccons] at hch hbig hub
      obtain ⟨st', hrun, hrest⟩ :=
        ih st hndr (fun j hj => his j (List.mem_cons_of_mem _ hj)) hch hbig hub
      refine ⟨st', ?_, ?_⟩
      · rw [destroyLoop_cons]
        rw [if_pos (by omega)]
        exact hrun
      · rw [hccons]
        exact hrest

end SC

namespace SC

/-- `destroy_pgtbl(st, m, 2)` on a mid-level table whose children are all
bottom tables: frees every bottom table to the kernel region and every
user-leaf frame to the user region. -/
theorem destroyMidTable {st : St} {m : Nat} (hne : m ≠ 0)
    (hshape : ∀ i ∈ List.range 512,
      st.mem m i % 2 = 1 → st.mem m i % 16 / 2 = 0)
    (hch : ∀ t ∈ childTables st m, t ≠ 0 ∧ st.kern.lo ≤ t ∧ t < st.kern.hi ∧
      ∀ i ∈ List.range 512, st.mem t i % 2 = 1 → ¬ st.mem t i % 16 / 2 = 0)
    (hbig : (m :: childTables st m ++
      (childTables st m).flatMap (uleavesOf st)).Nodup)
    (hub : ∀ f ∈ (childTables st m).flatMap (uleavesOf st),
      st.user.lo ≤ f ∧ f < st.user.hi) :
    ∃ st', destroyPgtbl 2 st m = some st' ∧
      st'.kern.lo = st.kern.lo ∧ st'.kern.hi = st.kern.hi ∧
      st'.user.lo = st.user.lo ∧ st'.user.hi = st.user.hi ∧
      (∀ f, st'.kern.list.count f =
        st.kern.list.count f + (childTables st m).count f) ∧
      st'.kern.allocable = st.kern.allocable + (childTables st m).length ∧
      (∀ f, st'.user.list.count f = st.user.list.count f +
        ((childTables st m).flatMap (uleavesOf st)).count f) ∧
      st'.user.allocable = st.user.allocable +
        ((childTables st m).flatMap (uleavesOf st)).length ∧
      (∀ x, x ≠ m → x ∉ childTables st m →
        x ∉ (childTables st m).flatMap (uleavesOf st) →
        ∀ j, st'.mem x j = st.mem x j) := by
  obtain ⟨st', hrun, hrest⟩ :=
    destroyLoopMid m (List.range 512) st (List.nodup_range _) hshape hch
      hbig hub
  refine ⟨st', ?_, hrest⟩
  rw [destroyPgtbl_two, if_neg hne]
  exact hrun

/-- Interior tables below (and including) a mid table `m`. -/
def kernBelow (st : St) (m : Nat) : List Nat :=
  m :: childTables st m

/-- User-leaf frames below a mid table `m`. -/
def userBelow (st : St) (m : Nat) : List Nat :=
  (childTables st m).flatMap (uleavesOf st)

theorem nodup_peel_top {root m : Nat} {CB K2 U1 U2 : List Nat}
    (h : (root :: ((m :: CB) ++ K2) ++ (U1 ++ U2)).Nodup) :
    (root :: K2 ++ U2).Nodup ∧ (m :: CB ++ U1).Nodup ∧
    root ≠ m ∧ root ∉ CB ∧ root ∉ K2 ∧ root ∉ U1 ∧ root ∉ U2 ∧
    m ∉ CB ∧ m ∉ K2 ∧ m ∉ U1 ∧ m ∉ U2 ∧
    (∀ x ∈ CB, x ∉ K2) ∧ (∀ x ∈ CB, x ∉ U1) ∧ (∀ x ∈ CB, x ∉ U2) ∧
    (∀ x ∈ U1, x ∉ K2) ∧ (∀ x ∈ U1, x ∉ U2) := by
  have h' : (root :: (m :: (CB ++ K2)) ++ (U1 ++ U2)).Nodup := h
  obtain ⟨A1, A2, A3, A4, A5, A6, A7, A8, A9, A10, A11, A12⟩ := nodup_peel h'
  have hCBnd : CB.Nodup := (List.nodup_append.mp A10).1
  have hK2nd : K2.Nodup := (List.nodup_append.mp A10).2.1
  have hdisj : CB.Disjoint K2 := (List.nodup_append.mp A10).2.2
  have hrootCB : root ∉ CB := fun hc => A4 (List.mem_append.mpr (Or.inl hc))
  have hrootK2 : root ∉ K2 := fun hc => A4 (List.mem_append.mpr (Or.inr hc))
  have hmCB : m ∉ CB := fun hc => A6 (List.mem_append.mpr (Or.inl hc))
  have hmK2 : m ∉ K2 := fun hc => A6 (List.mem_append.mpr (Or.inr hc))
  have hCBU1 : ∀ x ∈ CB, x ∉ U1 :=
    fun x hx => A11 x (List.mem_append.mpr (Or.inl hx))
  have hU1K2 : ∀ x ∈ U1, x ∉ K2 :=
    fun x hx hk => A11 x (List.mem_append.mpr (Or.inr hk)) hx
  have hA1t : ((CB ++ K2) ++ U2).Nodup := (List.nodup_cons.mp A1).2
  have hU2nd : U2.Nodup := (List.nodup_append.mp hA1t).2.1
  have hdisj2 : (CB ++ K2).Disjoint U2 := (List.nodup_append.mp hA1t).2.2
  have hCBU2 : ∀ x ∈ CB, x ∉ U2 :=
    fun x hx hu => hdisj2 (List.mem_append.mpr (Or.inl hx)) hu
  have hK2U2 : K2.Disjoint U2 :=
    fun {a} ha hu => hdisj2 (List.mem_append.mpr (Or.inr ha)) hu
  refine ⟨?_, ?_, A2, hrootCB, hrootK2, A3, A5, hmCB, hmK2, A7, A8,
    (fun x hx hk => hdisj hx hk), hCBU1, hCBU2, hU1K2, A12⟩
  · refine List.nodup_cons.mpr ⟨?_, List.nodup_append.mpr ⟨hK2nd, hU2nd, hK2U2⟩⟩
    intro hc
    rcases List.mem_append.mp hc with hk | hu
    · exact hrootK2 hk
    · exact A5 hu
  · refine List.nodup_cons.mpr
      ⟨?_, List.nodup_append.mpr ⟨hCBnd, A9, fun {a} ha => hCBU1 a ha⟩⟩
    intro hc
    rcases List.mem_append.mp hc with hk | hu
    · exact hmCB hk
    · exact A7 hu

end SC

namespace SC

/-- The level-3 entry loop of `destroy_pgtbl` over the root: every interior
table below the root (mid and bottom level) is freed once to the kernel
region; every user-leaf frame is freed once to the user region. -/
theorem destroyLoopTop (root : Nat) : ∀ (is : List Nat) (st : St),
    is.Nodup →
    (∀ i ∈ is, st.mem root i % 2 = 1 → st.mem root i % 16 / 2 = 0) →
    (∀ m ∈ childIdx st root is,
      m ≠ 0 ∧ st.kern.lo ≤ m ∧ m < st.kern.hi ∧
      (∀ i ∈ List.range 512, st.mem m i % 2 = 1 → st.mem m i % 16 / 2 = 0) ∧
      (∀ t ∈ childTables st m, t ≠ 0 ∧ st.kern.lo ≤ t ∧ t < st.kern.hi ∧
        ∀ i ∈ List.range 512,
          st.mem t i % 2 = 1 → ¬ st.mem t i % 16 / 2 = 0)) →
    (root :: (childIdx st root is).flatMap (kernBelow st) ++
      (childIdx st root is).flatMap (userBelow st)).Nodup →
    (∀ f ∈ (childIdx st root is).flatMap (userBelow st),
      st.user.lo ≤ f ∧ f < st.user.hi) →
    ∃ st', destroyLoop (destroyPgtbl 2) root st is = some st' ∧
      st'.kern.lo = st.kern.lo ∧ st'.kern.hi = st.kern.hi ∧
      st'.user.lo = st.user.lo ∧ st'.user.hi = st.user.hi ∧
      (∀ f, st'.kern.list.count f = st.kern.list.count f +
        ((childIdx st root is).flatMap (kernBelow st)).count f) ∧
      st'.kern.allocable = st.kern.allocable +
        ((childIdx st root is).flatMap (kernBelow st)).length ∧
      (∀ f, st'.user.list.count f = st.user.list.count f +
        ((childIdx st root is).flatMap (userBelow st)).count f) ∧
      st'.user.allocable = st.user.allocable +
        ((childIdx st root is).flatMap (userBelow st)).length ∧
      (∀ x, x ≠ root → x ∉ (childIdx st root is).flatMap (kernBelow st) →
        x ∉ (childIdx st root is).flatMap (userBelow st) →
        ∀ j, st'.mem x j = st.mem x j) := by
  intro is
  induction is with
  | nil =>
    intro st _ _ _ _ _
    exact ⟨st, rfl, rfl, rfl, rfl, rfl, (by simp [childIdx]),
      (by simp [childIdx]), (by simp [childIdx]), (by simp [childIdx]),
      fun x _ _ _ j => rfl⟩
  | cons i rest ih =>
    intro st hnd his hch hbig hub
    have hndr := (List.nodup_cons.mp hnd).2
    by_cases hv : st.mem root i % 2 = 1
    · have hint : st.mem root i % 16 / 2 = 0 :=
        his i (List.mem_cons_self _ _) hv
      have hccons : childIdx st root (i :: rest) =
          pteToPa (st.mem root i) :: childIdx st root rest := by
        unfold childIdx
        rw [List.filterMap_cons, if_pos ⟨hv, hint⟩]
      have hkb : kernBelow st (pteToPa (st.mem root i)) =
          pteToPa (st.mem root i) ::
            childTables st (pteToPa (st.mem root i)) := rfl
      have hub1 : userBelow st (pteToPa (st.mem root i)) =
          (childTables st (pteToPa (st.mem root i))).flatMap
            (uleavesOf st) := rfl
      rw [hccons, List.flatMap_cons, List.flatMap_cons, hkb, hub1] at hbig
      rw [hccons, List.flatMap_cons, hub1] at hub
      obtain ⟨hIHnd, hMidnd, hrm, hrCB, hrK2, hrU1, hrU2, hmCB, hmK2, hmU1,
        hmU2, hCBK2, hCBU1, hCBU2, hU1K2, hU1U2⟩ := nodup_peel_top hbig
      obtain ⟨hm0, hmlo, hmhi, hmsh, hmbt⟩ :=
        hch _ (by rw [hccons]; exact List.mem_cons_self _ _)
      obtain ⟨stB, hBrun, hBklo, hBkhi, hBulo, hBuhi, hBkcount, hBkalloc,
        hBucount, hBualloc, hBmem⟩ :=
        destroyMidTable hm0 hmsh hmbt hMidnd
          (fun f hf => hub f (List.mem_append.mpr (Or.inl hf)))
      have hfree := @pmem_free_true_ok stB (pteToPa (st.mem root i))
        (pteToPa_aligned (st.mem root i))
        (by rw [hBklo]; exact hmlo) (by rw [hBkhi]; exact hmhi)
      have hF_pres : ∀ x, x ≠ pteToPa (st.mem root i) →
          x ∉ childTables st (pteToPa (st.mem root i)) →
          x ∉ (childTables st (pteToPa (st.mem root i))).flatMap
            (uleavesOf st) → ∀ j,
          (Mem.write (Mem.fill stB.mem (pteToPa (st.mem root i)) 0)
            (pteToPa (st.mem root i)) 0 (headAddr stB.kern.list)) x j =
          st.mem x j := by
        intro x hx hxc hxu j
        rw [Mem.write_other_frame _ _ _ _ _ _ hx,
            Mem.fill_other _ _ _ _ _ hx]
        exact hBmem x hx hxc hxu j
      set stF : St :=
        { mem := Mem.write (Mem.fill stB.mem (pteToPa (st.mem root i)) 0) (pteToPa (st.mem root i)) 0 (headAddr stB.kern.list),
          kern := { stB.kern with list := pteToPa (st.mem root i) :: stB.kern.list, allocable := stB.kern.allocable + 1 },
          user := stB.user } with hstFdef
      have hFs_pres : ∀ x, x ≠ pteToPa (st.mem root i) →
          x ∉ childTables st (pteToPa (st.mem root i)) →
          x ∉ (childTables st (pteToPa (st.mem root i))).flatMap
            (uleavesOf st) → ∀ j, stF.mem x j = st.mem x j := hF_pres
      have hFs_root : ∀ j, stF.mem root j = st.mem root j :=
        fun j => hFs_pres root hrm hrCB hrU1 j
      -- every frame of K2 or U2 is untouched by the head step
      have hK2_pres : ∀ x ∈ (childIdx st root rest).flatMap (kernBelow st),
          ∀ j, stF.mem x j = st.mem x j := by
        intro x hx j
        exact hFs_pres x (fun hc => hmK2 (hc ▸ hx))
          (fun hc => hCBK2 x hc hx) (fun hc => hU1K2 x hc hx) j
      have hU2_pres : ∀ x ∈ (childIdx st root rest).flatMap (userBelow st),
          ∀ j, stF.mem x j = st.mem x j := by
        intro x hx j
        refine hFs_pres x (fun hc => hmU2 (hc ▸ hx))
          (fun hc => hCBU2 x hc hx) (fun hc => hU1U2 x hc hx) j
      have hchild2 : childIdx stF root rest = childIdx st root rest :=
        childIdx_congr (fun j _ => hFs_root j)
      have hmemK2 : ∀ m' ∈ childIdx st root rest,
          m' ∈ (childIdx st root rest).flatMap (kernBelow st) := by
        intro m' hm'
        exact List.mem_flatMap.mpr ⟨m', hm', List.mem_cons_self _ _⟩
      have hctK2 : ∀ m' ∈ childIdx st root rest,
          ∀ t ∈ childTables st m',
          t ∈ (childIdx st root rest).flatMap (kernBelow st) := by
        intro m' hm' t ht
        exact List.mem_flatMap.mpr ⟨m', hm', List.mem_cons_of_mem _ ht⟩
      have hct2 : ∀ m' ∈ childIdx st root rest,
          childTables stF m' = childTables st m' := by
        intro m' hm'
        exact childIdx_congr (fun j _ => hK2_pres m' (hmemK2 m' hm') j)
      have hulv2 : ∀ m' ∈ childIdx st root rest,
          ∀ t ∈ childTables st m', uleavesOf stF t = uleavesOf st t := by
        intro m' hm' t ht
        exact uleavesIdx_congr (fun j _ => hK2_pres t (hctK2 m' hm' t ht) j)
      have hkb2 : ∀ m' ∈ childIdx st root rest,
          kernBelow stF m' = kernBelow st m' := by
        intro m' hm'
        unfold kernBelow
        rw [hct2 m' hm']
      have hubl2 : ∀ m' ∈ childIdx st root rest,
          userBelow stF m' = userBelow st m' := by
        intro m' hm'
        unfold userBelow
        rw [hct2 m' hm']
        exact flatMap_congr (hulv2 m' hm')
      have hflatK : (childIdx stF root rest).flatMap (kernBelow stF) =
          (childIdx st root rest).flatMap (kernBelow st) := by
        rw [hchild2]
        exact flatMap_congr hkb2
      have hflatU : (childIdx stF root rest).flatMap (userBelow stF) =
          (childIdx st root rest).flatMap (userBelow st) := by
        rw [hchild2]
        exact flatMap_congr hubl2
      obtain ⟨st', hrun, hklo, hkhi, hulo, huhi, hkcount, hkalloc, hucount,
        hualloc, hmem⟩ :=
        ih stF hndr
          (fun j hj hvj => by
            rw [hFs_root j] at hvj ⊢
            exact his j (List.mem_cons_of_mem _ hj) hvj)
          (by
            rw [hchild2]
            intro m' hm'
            obtain ⟨h0, hlo', hhi', hsh', hbt'⟩ :=
              hch m' (by rw [hccons]; exact List.mem_cons_of_mem _ hm')
            refine ⟨h0, ?_, ?_, ?_, ?_⟩
            · rw [hstFdef]
              simp only
              rw [hBklo]
              exact hlo'
            · rw [hstFdef]
              simp only
              rw [hBkhi]
              exact hhi'
            · intro ii hii hvii
              rw [hK2_pres m' (hmemK2 m' hm') ii] at hvii ⊢
              exact hsh' ii hii hvii
            · rw [hct2 m' hm']
              intro t ht
              obtain ⟨ht0, htlo, hthi, htsh⟩ := hbt' t ht
              refine ⟨ht0, ?_, ?_, ?_⟩
              · rw [hstFdef]
                simp only
                rw [hBklo]
                exact htlo
              · rw [hstFdef]
                simp only
                rw [hBkhi]
                exact hthi
              · intro ii hii hvii
                rw [hK2_pres t (hctK2 m' hm' t ht) ii] at hvii ⊢
                exact htsh ii hii hvii)
          (by rw [hflatU, hflatK]; exact hIHnd)
          (by
            rw [hflatU]
            intro f hf
            have := hub f (List.mem_append.mpr (Or.inr hf))
            rw [hstFdef]
            simp only
            rw [hBulo, hBuhi]
            exact this)
      refine ⟨st', ?_, ?_, ?_, ?_, ?_, ?_, ?_, ?_, ?_, ?_⟩
      · rw [destroyLoop_cons]
        rw [if_neg (by omega), if_pos hint, hBrun]
        dsimp only
        rw [hfree]
        exact hrun
      · rw [hklo, hstFdef]
        simp only
        rw [hBklo]
      · rw [hkhi, hstFdef]
        simp only
        rw [hBkhi]
      · rw [hulo, hstFdef]
        simp only
        rw [hBulo]
      · rw [huhi, hstFdef]
        simp only
        rw [hBuhi]
      · intro f
        rw [hkcount, hflatK, hccons, List.flatMap_cons, hkb,
            List.count_append]
        have hl : stF.kern.list = pteToPa (st.mem root i) :: stB.kern.list := by
          rw [hstFdef]
        rw [hl, List.count_cons, hBkcount f]
        simp [List.count_cons]
        omega
      · rw [hkalloc, hflatK, hccons, List.flatMap_cons, hkb,
            List.length_append]
        have ha : stF.kern.allocable = stB.kern.allocable + 1 := by
          rw [hstFdef]
        rw [ha, hBkalloc]
        simp
        omega
      · intro f
        rw [hucount, hflatU, hccons, List.flatMap_cons, hub1,
            List.count_append]
        have hl : stF.user.list = stB.user.list := by
          rw [hstFdef]
        rw [hl, hBucount f]
        omega
      · rw [hualloc, hflatU, hccons, List.flatMap_cons, hub1,
            List.length_append]
        have ha : stF.user.allocable = stB.user.allocable := by
          rw [hstFdef]
        rw [ha, hBualloc]
        omega
      · intro x hx hxk hxu j
        rw [hccons, List.flatMap_cons, hkb] at hxk
        rw [hccons, List.flatMap_cons, hub1] at hxu
        have hxm : x ≠ pteToPa (st.mem root i) :=
          fun hc => hxk (List.mem_append.mpr
            (Or.inl (hc ▸ List.mem_cons_self _ _)))
        have hxCB : x ∉ childTables st (pteToPa (st.mem root i)) :=
          fun hc => hxk (List.mem_append.mpr
            (Or.inl (List.mem_cons_of_mem _ hc)))
        have hxK2 : x ∉ (childIdx st root rest).flatMap (kernBelow st) :=
          fun hc => hxk (List.mem_append.mpr (Or.inr hc))
        have hxU1 : x ∉ (childTables st (pteToPa (st.mem root i))).flatMap
            (uleavesOf st) :=
          fun hc => hxu (List.mem_append.mpr (Or.inl hc))
        have hxU2 : x ∉ (childIdx st root rest).flatMap (userBelow st) :=
          fun hc => hxu (List.mem_append.mpr (Or.inr hc))
        rw [hmem x hx (by rw [hflatK]; exact hxK2)
            (by rw [hflatU]; exact hxU2) j]
        exact hFs_pres x hxm hxCB hxU1 j
    · have hccons : childIdx st root (i :: rest) = childIdx st root rest := by
        unfold childIdx
        rw [List.filterMap_cons, if_neg (by intro hc; exact hv hc.1)]
      rw [hccons] at hch hbig hub
      obtain ⟨st', hrun, hrest⟩ :=
        ih st hndr (fun j hj => his j (List.mem_cons_of_mem _ hj)) hch hbig hub
      refine ⟨st', ?_, ?_⟩
      · rw [destroyLoop_cons]
        rw [if_pos (by omega)]
        exact hrun
      · rw [hccons]
        exact hrest

end SC

namespace SC

/-- C3. Destroy frees the whole tree exactly once — but the root frame goes
to the **user** region: for a well-formed three-level tree,
`uvm_destroy_pgtbl` completes, every interior (mid- and bottom-level) table
is freed exactly once to the kernel region's free list, every user-owned
leaf frame exactly once to the user region's free list, and the root frame
is freed exactly once to the **user** region's free list (the code calls
`pmem_free(pgtbl, false)` on the root), contradicting the claim that the
root joins the kernel region. -/
theorem c3_destroy_frees_tree (st : St) (root : Nat)
    (hr0 : root ≠ 0) (hral : root % 4096 = 0)
    (hulo : st.user.lo ≤ root) (huhi : root < st.user.hi)
    (hsh : ∀ i ∈ List.range 512,
      st.mem root i % 2 = 1 → st.mem root i % 16 / 2 = 0)
    (hch : ∀ m ∈ childTables st root,
      m ≠ 0 ∧ st.kern.lo ≤ m ∧ m < st.kern.hi ∧
      (∀ i ∈ List.range 512, st.mem m i % 2 = 1 → st.mem m i % 16 / 2 = 0) ∧
      (∀ t ∈ childTables st m, t ≠ 0 ∧ st.kern.lo ≤ t ∧ t < st.kern.hi ∧
        ∀ i ∈ List.range 512,
          st.mem t i % 2 = 1 → ¬ st.mem t i % 16 / 2 = 0))
    (hbig : (root :: (childTables st root).flatMap (kernBelow st) ++
      (childTables st root).flatMap (userBelow st)).Nodup)
    (hub : ∀ f ∈ (childTables st root).flatMap (userBelow st),
      st.user.lo ≤ f ∧ f < st.user.hi) :
    ∃ st', uvm_destroy_pgtbl st root = some st' ∧
      (∀ f, st'.kern.list.count f = st.kern.list.count f +
        ((childTables st root).flatMap (kernBelow st)).count f) ∧
      (∀ f, st'.user.list.count f = st.user.list.count f +
        (root :: (childTables st root).flatMap (userBelow st)).count f) ∧
      st'.kern.allocable = st.kern.allocable +
        ((childTables st root).flatMap (kernBelow st)).length ∧
      st'.user.allocable = st.user.allocable +
        ((childTables st root).flatMap (userBelow st)).length + 1 := by
  obtain ⟨stT, hTrun, hTklo, hTkhi, hTulo, hTuhi, hTkc, hTka, hTuc, hTua,
    hTmem⟩ :=
    destroyLoopTop root (List.range 512) st (List.nodup_range _) hsh hch
      hbig hub
  have hG : pmem_free { stT with mem := Mem.fill stT.mem root 0 } root false
      = some
      { mem := Mem.write (Mem.fill (Mem.fill stT.mem root 0) root 0) root 0 (headAddr stT.user.list),
        kern := stT.kern,
        user := { stT.user with list := root :: stT.user.list, allocable := stT.user.allocable + 1 } } :=
    @pmem_free_false_ok { stT with mem := Mem.fill stT.mem root 0 } root hral
      (by show stT.user.lo ≤ root; rw [hTulo]; exact hulo)
      (by show root < stT.user.hi; rw [hTuhi]; exact huhi)
  refine ⟨{ mem := Mem.write (Mem.fill (Mem.fill stT.mem root 0) root 0) root 0 (headAddr stT.user.list),
            kern := stT.kern,
            user := { stT.user with list := root :: stT.user.list, allocable := stT.user.allocable + 1 } },
    ?_, ?_, ?_, ?_, ?_⟩
  · unfold uvm_destroy_pgtbl
    rw [if_neg hr0, destroyPgtbl_three, if_neg hr0, hTrun]
    dsimp only
    exact hG
  · intro f
    show stT.kern.list.count f = _
    exact hTkc f
  · intro f
    show (root :: stT.user.list).count f = _
    have hct : (childTables st root : List Nat) =
        childIdx st root (List.range 512) := rfl
    rw [hct]
    simp only [List.count_cons]
    rw [hTuc f]
    omega
  · show stT.kern.allocable = _
    exact hTka
  · show stT.user.allocable + 1 = _
    rw [hTua]
    rfl

/-- A concrete three-level address space: root `4096` (a user-region frame,
as `proc_pgtbl_init` allocates it with `pmem_alloc(false)`), one mid table
`8192`, one bottom table `12288`, one user leaf backed by frame `16384`. -/
def c3DestroySt : St :=
  { mem := fun t i =>
      if t = 4096 ∧ i = 0 then paToPte 8192 + 1
      else if t = 8192 ∧ i = 0 then paToPte 12288 + 1
      else if t = 12288 ∧ i = 0 then paToPte 16384 + 23
      else 0,
    kern := { lo := 8192, hi := 16384, allocable := 0, list := [] },
    user := { lo := 4096, hi := 32768, allocable := 0, list := [] } }

end SC

set_option maxRecDepth 8000 in
/-- Counterexample to C3's region assignment: destroying the concrete tree
of `c3DestroySt` succeeds and frees the interior tables `8192`, `12288` to
the kernel free list, but the root `4096` lands — together with the leaf
frame `16384` — on the **user** region's free list, not the kernel's. -/
theorem c3_destroy_root_region_counterexample :
    ((SC.uvm_destroy_pgtbl SC.c3DestroySt 4096).getD SC.c3DestroySt).user.list
      = [4096, 16384] ∧
    ((SC.uvm_destroy_pgtbl SC.c3DestroySt 4096).getD SC.c3DestroySt).kern.list
      = [8192, 12288] ∧
    (SC.uvm_destroy_pgtbl SC.c3DestroySt 4096).isSome = true := by
  refine ⟨rfl, rfl, rfl⟩

set_option maxRecDepth 8000 in
/-- Witness for C3 at the concrete tree `c3DestroySt`. -/
theorem c3_destroy_frees_tree_witness :
    ∃ st', SC.uvm_destroy_pgtbl SC.c3DestroySt 4096 = some st' ∧
      (∀ f, st'.kern.list.count f = SC.c3DestroySt.kern.list.count f +
        ((SC.childTables SC.c3DestroySt 4096).flatMap
          (SC.kernBelow SC.c3DestroySt)).count f) ∧
      (∀ f, st'.user.list.count f = SC.c3DestroySt.user.list.count f +
        (4096 :: (SC.childTables SC.c3DestroySt 4096).flatMap
          (SC.userBelow SC.c3DestroySt)).count f) ∧
      st'.kern.allocable = SC.c3DestroySt.kern.allocable +
        ((SC.childTables SC.c3DestroySt 4096).flatMap
          (SC.kernBelow SC.c3DestroySt)).length ∧
      st'.user.allocable = SC.c3DestroySt.user.allocable +
        ((SC.childTables SC.c3DestroySt 4096).flatMap
          (SC.userBelow SC.c3DestroySt)).length + 1 :=
  SC.c3_destroy_frees_tree SC.c3DestroySt 4096 (by decide) (by decide)
    (by decide) (by decide) (by decide) (by decide) (by decide) (by decide)

namespace SC

theorem copy_range_loop_zero (st : St) (old new va : Nat) :
    copy_range_loop st old new va 0 = some st := rfl

theorem copy_range_loop_succ (st : St) (old new va n : Nat) :
    copy_range_loop st old new va (n + 1) =
      match vm_getpte st old va false with
      | none => none
      | some (none, _) => none
      | some (some (t, i), _) =>
        let pte := st.mem t i
        if pte % 2 ≠ 1 then none
        else
          let pa := pteToPa pte
          let flags := pte % 1024
          match pmem_alloc st false with
          | none => none
          | some (page, st1) =>
            if page = 0 then none
            else
              let st2 := { st1 with mem := Mem.copyPage st1.mem page pa }
              match vm_mappages st2 new va page 4096 flags with
              | none => none
              | some st3 => copy_range_loop st3 old new (va + 4096) n := rfl

theorem vm_mappages_loop_zero (st : St) (pgtbl mapStart pa perm : Nat) :
    vm_mappages_loop st pgtbl mapStart pa perm 0 = some st := rfl

theorem vm_mappages_loop_succ (st : St) (pgtbl mapStart pa perm n : Nat) :
    vm_mappages_loop st pgtbl mapStart pa perm (n + 1) =
      match vm_getpte st pgtbl mapStart true with
      | none => none
      | some (none, _) => none
      | some (some (t, i), st1) =>
        if st1.mem t i % 2 = 1 then none
        else
          let st2 := { st1 with mem := Mem.write st1.mem t i (paToPte pa ||| perm ||| 1) }
          vm_mappages_loop st2 pgtbl (mapStart + 4096) (pa + 4096) perm n := rfl

/-- A valid entry short-circuits the creating walker step: nothing is
allocated and nothing is written. -/
theorem getpteStep_true_of_valid {st : St} {tbl va l : Nat}
    (h : st.mem tbl (vpn va l) % 2 = 1) :
    getpteStep st tbl va l true =
      some (some (pteToPa (st.mem tbl (vpn va l))), st) := by
  unfold getpteStep
  rw [if_pos h]

/-- `pmem_alloc(false)` with a non-empty user free list pops and zero-fills
the head frame. -/
theorem pmem_alloc_false_ok {st : St} {page : Nat} {rest : List Nat}
    (hl : st.user.list = page :: rest) (hnz : st.user.allocable ≠ 0) :
    pmem_alloc st false = some (page,
      { mem := Mem.fill st.mem page 0,
        kern := st.kern,
        user := { st.user with list := rest, allocable := st.user.allocable - 1 } }) := by
  unfold pmem_alloc
  simp only [Bool.false_eq_true, if_false]
  rw [hl]
  rw [if_neg (by simp [hnz])]

end SC

/-- `x | 1 = x` when bit 0 of `x` is already set. -/
theorem lor_one_of_odd {x : Nat} (hx : x % 2 = 1) : x ||| 1 = x := by
  apply Nat.eq_of_testBit_eq
  intro i
  rw [Nat.testBit_or]
  cases i with
  | zero =>
    simp [Nat.testBit_zero, Nat.odd_iff.mpr hx, hx]
  | succ n =>
    simp [Nat.testBit_succ]

namespace SC

/-- `vm_mappages` of one page over a destination tree whose interior path
for `va` is already present (so the creating walk allocates nothing) and
whose leaf slot is free: the slot becomes `PA_TO_PTE(pa) | perm | PTE_V`. -/
theorem mappages_one_valid_path (n1 n0 : Nat) {st2 : St} {new va page fl : Nat}
    (hn1 : n1 = pteToPa (st2.mem new (vpn va 2)))
    (hn0 : n0 = pteToPa (st2.mem n1 (vpn va 1)))
    (h2 : st2.mem new (vpn va 2) % 2 = 1)
    (h1 : st2.mem n1 (vpn va 1) % 2 = 1)
    (h0 : st2.mem n0 (vpn va 0) % 2 = 0)
    (hva : va % 4096 = 0) (hpal : page % 4096 = 0)
    (hvmax : va + 4096 ≤ VA_MAX) :
    vm_mappages st2 new va page 4096 fl =
      some { st2 with mem := Mem.write st2.mem n0 (vpn va 0) (paToPte page ||| fl ||| 1) } := by
  have hg2 : getpteStep st2 new va 2 true = some (some n1, st2) := by
    rw [getpteStep_true_of_valid h2, ← hn1]
  have hg1 : getpteStep st2 n1 va 1 true = some (some n0, st2) := by
    rw [getpteStep_true_of_valid h1, ← hn0]
  have hwalk : vm_getpte st2 new va true =
      some (some (n0, vpn va 0), st2) := by
    unfold vm_getpte
    rw [hg2]
    dsimp only
    rw [hg1]
  unfold vm_mappages
  rw [if_neg (by omega), if_neg (by omega), if_neg (by omega)]
  rw [show va / 4096 * 4096 = va from by omega]
  rw [show ((va + 4096 - 1) / 4096 * 4096 - va) / 4096 + 1 = 1 from by omega]
  rw [vm_mappages_loop_succ, hwalk]
  dsimp only
  rw [if_neg (by omega)]
  rw [vm_mappages_loop_zero]

end SC

namespace SC

/-- `pmem_alloc(true)` with a non-empty kernel free list pops and zero-fills
the head frame. -/
theorem pmem_alloc_true_ok {st : St} {page : Nat} {rest : List Nat}
    (hl : st.kern.list = page :: rest) (hnz : st.kern.allocable ≠ 0) :
    pmem_alloc st true = some (page,
      { mem := Mem.fill st.mem page 0,
        kern := { st.kern with list := rest, allocable := st.kern.allocable - 1 },
        user := st.user }) := by
  unfold pmem_alloc
  simp only [if_true]
  rw [hl]
  rw [if_neg (by simp [hnz])]

theorem copy_mmap_list_nil (st : St) (old new ht : Nat) :
    copy_mmap_list st old new ht [] = some st := rfl

theorem copy_mmap_list_cons (st : St) (old new ht : Nat) (r : MmapRegion)
    (rest : List MmapRegion) :
    copy_mmap_list st old new ht (r :: rest) =
      (if r.lo < ht ∨ TRAPFRAME ≤ r.lo + r.npages * 4096 then none
       else
        match copy_range st old new r.lo (r.lo + r.npages * 4096) with
        | none => none
        | some st1 => copy_mmap_list st1 old new ht rest) := rfl

/-- `vm_mappages` of one page into a tree whose level-2 entry for `va` is
still empty: the creating walk pops the two head frames of the kernel free
list as the fresh mid- and bottom-level tables, links them in, and writes
the leaf `PA_TO_PTE(page) | perm | PTE_V` into the freshly zeroed bottom
table. -/
theorem mappages_one_fresh_path (k1 k2 : Nat) {st2 : St}
    {new va page fl : Nat} {krest : List Nat}
    (hk : st2.kern.list = k1 :: k2 :: krest)
    (hka : 2 ≤ st2.kern.allocable)
    (h2 : st2.mem new (vpn va 2) % 2 = 0)
    (hk1new : k1 ≠ new) (hk12 : k2 ≠ k1)
    (hva : va % 4096 = 0) (hpal : page % 4096 = 0)
    (hvmax : va + 4096 ≤ VA_MAX) :
    vm_mappages st2 new va page 4096 fl = some
      { mem := Mem.write (Mem.write (Mem.fill (Mem.fill (Mem.write (Mem.fill (Mem.fill st2.mem k1 0) k1 0) new (vpn va 2) (paToPte k1 ||| 1)) k2 0) k2 0) k1 (vpn va 1) (paToPte k2 ||| 1)) k2 (vpn va 0) (paToPte page ||| fl ||| 1),
        kern := { st2.kern with list := krest, allocable := st2.kern.allocable - 1 - 1 },
        user := st2.user } := by
  have hgA : getpteStep st2 new va 2 true = some (some k1,
      { mem := Mem.write (Mem.fill (Mem.fill st2.mem k1 0) k1 0) new (vpn va 2) (paToPte k1 ||| 1),
        kern := { st2.kern with list := k2 :: krest, allocable := st2.kern.allocable - 1 },
        user := st2.user }) := by
    unfold getpteStep
    rw [if_neg (by omega), if_neg (by simp)]
    rw [pmem_alloc_true_ok hk (by omega)]
  have hgB : getpteStep
      { mem := Mem.write (Mem.fill (Mem.fill st2.mem k1 0) k1 0) new (vpn va 2) (paToPte k1 ||| 1),
        kern := { st2.kern with list := k2 :: krest, allocable := st2.kern.allocable - 1 },
        user := st2.user } k1 va 1 true = some (some k2,
      { mem := Mem.write (Mem.fill (Mem.fill (Mem.write (Mem.fill (Mem.fill st2.mem k1 0) k1 0) new (vpn va 2) (paToPte k1 ||| 1)) k2 0) k2 0) k1 (vpn va 1) (paToPte k2 ||| 1),
        kern := { st2.kern with list := krest, allocable := st2.kern.allocable - 1 - 1 },
        user := st2.user }) := by
    have e1 : (Mem.write (Mem.fill (Mem.fill st2.mem k1 0) k1 0) new (vpn va 2) (paToPte k1 ||| 1)) k1 (vpn va 1) = 0 := by
      rw [Mem.write_other_frame _ _ _ _ _ _ hk1new, Mem.fill_same]
    unfold getpteStep
    dsimp only
    rw [e1]
    rw [if_neg (by omega), if_neg (by simp)]
    rw [pmem_alloc_true_ok rfl (by dsimp only; omega)]
  have hwalk : vm_getpte st2 new va true = some (some (k2, vpn va 0),
      { mem := Mem.write (Mem.fill (Mem.fill (Mem.write (Mem.fill (Mem.fill st2.mem k1 0) k1 0) new (vpn va 2) (paToPte k1 ||| 1)) k2 0) k2 0) k1 (vpn va 1) (paToPte k2 ||| 1),
        kern := { st2.kern with list := krest, allocable := st2.kern.allocable - 1 - 1 },
        user := st2.user }) := by
    unfold vm_getpte
    rw [hgA]
    dsimp only
    rw [hgB]
  have e0 : (Mem.write (Mem.fill (Mem.fill (Mem.write (Mem.fill (Mem.fill st2.mem k1 0) k1 0) new (vpn va 2) (paToPte k1 ||| 1)) k2 0) k2 0) k1 (vpn va 1) (paToPte k2 ||| 1)) k2 (vpn va 0) = 0 := by
    rw [Mem.write_other_frame _ _ _ _ _ _ hk12, Mem.fill_same]
  unfold vm_mappages
  rw [if_neg (by omega), if_neg (by omega), if_neg (by omega)]
  rw [show va / 4096 * 4096 = va from by omega]
  rw [show ((va + 4096 - 1) / 4096 * 4096 - va) / 4096 + 1 = 1 from by omega]
  rw [vm_mappages_loop_succ, hwalk]
  dsimp only
  rw [e0]
  rw [if_neg (by omega)]
  rw [vm_mappages_loop_zero]

end SC

namespace SC

set_option maxHeartbeats 2000000 in
/-- C6. Duplicate fidelity through `uvm_copy_pgtbl`: for an mmap extent of
one page at any suitable `va` that is validly mapped in the source `old`,
duplication into a **fresh, zeroed** destination root `new` (the creating
walk builds the destination's mid- and bottom-level tables from the kernel
free list) installs at the same `va` a leaf with the same `PTE_FLAGS` as the
source, backed by the frame popped from the user free list — distinct from
the source frame because the free lists are disjoint from the live trees,
not by assumption on the frames themselves — whose 4096 bytes equal the
source frame's content at the moment of duplication; the destination walk
then resolves `va` to that leaf, and `uvm_get_phys_addr` translates `va` to
the fresh frame when the source page was user-accessible. -/
theorem c6_duplicate_fidelity (st : St)
    (old new va page k1 k2 t1 t0s : Nat) (urest krest : List Nat)
    (ht1 : t1 = pteToPa (st.mem old (vpn va 2)))
    (ht0 : t0s = pteToPa (st.mem t1 (vpn va 1)))
    (ho0 : old ≠ 0) (hn0 : new ≠ 0)
    (hso2 : st.mem old (vpn va 2) % 2 = 1)
    (hso1 : st.mem t1 (vpn va 1) % 2 = 1)
    (hsleaf : st.mem t0s (vpn va 0) % 2 = 1)
    (hfresh : ∀ j, st.mem new j = 0)
    (hul : st.user.list = page :: urest) (hua : st.user.allocable ≠ 0)
    (hp0 : page ≠ 0) (hpal : page % 4096 = 0)
    (hkl : st.kern.list = k1 :: k2 :: krest) (hka : 2 ≤ st.kern.allocable)
    (hk1al : k1 % 4096 = 0) (hk2al : k2 % 4096 = 0)
    (hknd : st.kern.list.Nodup)
    (hUdisj : ∀ f ∈ st.user.list,
      f ≠ old ∧ f ≠ t1 ∧ f ≠ t0s ∧
      f ≠ pteToPa (st.mem t0s (vpn va 0)) ∧ f ≠ new)
    (hKdisj : ∀ f ∈ st.kern.list,
      f ≠ old ∧ f ≠ t1 ∧ f ≠ t0s ∧
      f ≠ pteToPa (st.mem t0s (vpn va 0)) ∧ f ≠ new ∧ f ∉ st.user.list)
    (hva : va % 4096 = 0) (hlo : 4096 ≤ va)
    (hhi : va + 4096 < TRAPFRAME) :
    ∃ st', uvm_copy_pgtbl st old new 4096 0 [⟨va, 1⟩] = some st' ∧
      st'.mem k2 (vpn va 0) =
        paToPte page ||| st.mem t0s (vpn va 0) % 1024 ||| 1 ∧
      pteToPa (st'.mem k2 (vpn va 0)) = page ∧
      pteFlags (st'.mem k2 (vpn va 0)) = pteFlags (st.mem t0s (vpn va 0)) ∧
      page ≠ pteToPa (st.mem t0s (vpn va 0)) ∧
      (∀ j, st'.mem page j = st.mem (pteToPa (st.mem t0s (vpn va 0))) j) ∧
      vm_getpte st' new va false = some (some (k2, vpn va 0), st') ∧
      (st.mem t0s (vpn va 0) / 16 % 2 = 1 →
        uvm_get_phys_addr st' new va = page) := by
  have hTT : TRAPFRAME + 4096 = TRAMPOLINE := by decide
  have hTV : TRAMPOLINE + 4096 = VA_MAX := by decide
  have hpmem : page ∈ st.user.list := by
    rw [hul]
    exact List.mem_cons_self _ _
  obtain ⟨hpold, hpt1, hpt0, hppa, hpnew⟩ := hUdisj page hpmem
  have hk1mem : k1 ∈ st.kern.list := by
    rw [hkl]
    exact List.mem_cons_self _ _
  have hk2mem : k2 ∈ st.kern.list := by
    rw [hkl]
    exact List.mem_cons_of_mem _ (List.mem_cons_self _ _)
  obtain ⟨hk1old, hk1t1, hk1t0, hk1pa, hk1new, hk1ul⟩ := hKdisj k1 hk1mem
  obtain ⟨hk2old, hk2t1, hk2t0, hk2pa, hk2new, hk2ul⟩ := hKdisj k2 hk2mem
  have hk1pg : k1 ≠ page := fun hc => hk1ul (hc ▸ hpmem)
  have hk2pg : k2 ≠ page := fun hc => hk2ul (hc ▸ hpmem)
  have hk12 : k2 ≠ k1 := by
    rw [hkl] at hknd
    have hni := (List.nodup_cons.mp hknd).1
    intro hc
    refine hni ?_
    rw [← hc]
    exact List.mem_cons_self _ _
  have hwalkS : vm_getpte st old va false =
      some (some (t0s, vpn va 0), st) := by
    rw [vm_getpte_false_eq, ← ht1, if_pos hso2, if_pos hso1, ← ht0]
  have hflt : st.mem t0s (vpn va 0) % 1024 < 1024 := Nat.mod_lt _ (by omega)
  have hflodd : st.mem t0s (vpn va 0) % 1024 % 2 = 1 := by omega
  have hguard : ¬(new = 0 ∨ TRAMPOLINE ≤ va) := by omega
  have hmapfresh := @mappages_one_fresh_path k1 k2
    { mem := Mem.copyPage (Mem.fill st.mem page 0) page (pteToPa (st.mem t0s (vpn va 0))), kern := st.kern, user := { st.user with list := urest, allocable := st.user.allocable - 1 } }
    new va page (st.mem t0s (vpn va 0) % 1024) krest
    (by dsimp only; exact hkl)
    (by dsimp only; exact hka)
    (by
      dsimp only
      rw [Mem.copyPage_other _ _ _ _ _ (Ne.symm hpnew),
          Mem.fill_other _ _ _ _ _ (Ne.symm hpnew), hfresh])
    hk1new hk12 hva hpal (by omega)
  have hcopy : copy_range st old new va (va + 1 * 4096) = some
      { mem := Mem.write (Mem.write (Mem.fill (Mem.fill (Mem.write (Mem.fill (Mem.fill (Mem.copyPage (Mem.fill st.mem page 0) page (pteToPa (st.mem t0s (vpn va 0)))) k1 0) k1 0) new (vpn va 2) (paToPte k1 ||| 1)) k2 0) k2 0) k1 (vpn va 1) (paToPte k2 ||| 1)) k2 (vpn va 0) (paToPte page ||| st.mem t0s (vpn va 0) % 1024 ||| 1),
        kern := { st.kern with list := krest, allocable := st.kern.allocable - 1 - 1 },
        user := { st.user with list := urest, allocable := st.user.allocable - 1 } } := by
    unfold copy_range
    rw [show (va + 1 * 4096 - va + 4095) / 4096 = 1 from by omega]
    rw [copy_range_loop_succ, hwalkS]
    dsimp only
    rw [if_neg (by omega)]
    rw [pmem_alloc_false_ok hul hua]
    dsimp only
    rw [if_neg hp0]
    rw [hmapfresh]
    dsimp only
    rw [copy_range_loop_zero]
  have hwalkF : vm_getpte
      { mem := Mem.write (Mem.write (Mem.fill (Mem.fill (Mem.write (Mem.fill (Mem.fill (Mem.copyPage (Mem.fill st.mem page 0) page (pteToPa (st.mem t0s (vpn va 0)))) k1 0) k1 0) new (vpn va 2) (paToPte k1 ||| 1)) k2 0) k2 0) k1 (vpn va 1) (paToPte k2 ||| 1)) k2 (vpn va 0) (paToPte page ||| st.mem t0s (vpn va 0) % 1024 ||| 1),
        kern := { st.kern with list := krest, allocable := st.kern.allocable - 1 - 1 },
        user := { st.user with list := urest, allocable := st.user.allocable - 1 } } new va false =
      some (some (k2, vpn va 0),
      { mem := Mem.write (Mem.write (Mem.fill (Mem.fill (Mem.write (Mem.fill (Mem.fill (Mem.copyPage (Mem.fill st.mem page 0) page (pteToPa (st.mem t0s (vpn va 0)))) k1 0) k1 0) new (vpn va 2) (paToPte k1 ||| 1)) k2 0) k2 0) k1 (vpn va 1) (paToPte k2 ||| 1)) k2 (vpn va 0) (paToPte page ||| st.mem t0s (vpn va 0) % 1024 ||| 1),
        kern := { st.kern with list := krest, allocable := st.kern.allocable - 1 - 1 },
        user := { st.user with list := urest, allocable := st.user.allocable - 1 } }) := by
    have g2 : (Mem.write (Mem.write (Mem.fill (Mem.fill (Mem.write (Mem.fill (Mem.fill (Mem.copyPage (Mem.fill st.mem page 0) page (pteToPa (st.mem t0s (vpn va 0)))) k1 0) k1 0) new (vpn va 2) (paToPte k1 ||| 1)) k2 0) k2 0) k1 (vpn va 1) (paToPte k2 ||| 1)) k2 (vpn va 0) (paToPte page ||| st.mem t0s (vpn va 0) % 1024 ||| 1)) new (vpn va 2) = paToPte k1 ||| 1 := by
      rw [Mem.write_other_frame _ _ _ _ _ _ (Ne.symm hk2new),
          Mem.write_other_frame _ _ _ _ _ _ (Ne.symm hk1new),
          Mem.fill_other _ _ _ _ _ (Ne.symm hk2new),
          Mem.fill_other _ _ _ _ _ (Ne.symm hk2new),
          Mem.write_same]
    have g1 : (Mem.write (Mem.write (Mem.fill (Mem.fill (Mem.write (Mem.fill (Mem.fill (Mem.copyPage (Mem.fill st.mem page 0) page (pteToPa (st.mem t0s (vpn va 0)))) k1 0) k1 0) new (vpn va 2) (paToPte k1 ||| 1)) k2 0) k2 0) k1 (vpn va 1) (paToPte k2 ||| 1)) k2 (vpn va 0) (paToPte page ||| st.mem t0s (vpn va 0) % 1024 ||| 1)) k1 (vpn va 1) = paToPte k2 ||| 1 := by
      rw [Mem.write_other_frame _ _ _ _ _ _ (Ne.symm hk12), Mem.write_same]
    have v2 : (paToPte k1 ||| 1) % 2 = 1 := by
      rw [construct_mod_2 (by norm_num)]
    have v1 : (paToPte k2 ||| 1) % 2 = 1 := by
      rw [construct_mod_2 (by norm_num)]
    rw [vm_getpte_false_eq]
    dsimp only
    rw [g2, pteToPa_construct hk1al (by norm_num), g1,
        pteToPa_construct hk2al (by norm_num), if_pos v2, if_pos v1]
  refine ⟨{ mem := Mem.write (Mem.write (Mem.fill (Mem.fill (Mem.write (Mem.fill (Mem.fill (Mem.copyPage (Mem.fill st.mem page 0) page (pteToPa (st.mem t0s (vpn va 0)))) k1 0) k1 0) new (vpn va 2) (paToPte k1 ||| 1)) k2 0) k2 0) k1 (vpn va 1) (paToPte k2 ||| 1)) k2 (vpn va 0) (paToPte page ||| st.mem t0s (vpn va 0) % 1024 ||| 1),
            kern := { st.kern with list := krest, allocable := st.kern.allocable - 1 - 1 },
            user := { st.user with list := urest, allocable := st.user.allocable - 1 } },
    ?_, ?_, ?_, ?_, hppa, ?_, hwalkF, ?_⟩
  · unfold uvm_copy_pgtbl
    rw [if_neg (by omega), if_neg (by omega)]
    dsimp only
    rw [if_neg (by omega)]
    dsimp only
    rw [if_neg (fun h => absurd h.1 (by omega))]
    dsimp only
    rw [copy_mmap_list_cons]
    dsimp only
    rw [if_neg (by omega)]
    rw [hcopy]
    dsimp only
    rw [copy_mmap_list_nil]
  · dsimp only
    rw [Mem.write_same]
  · dsimp only
    rw [Mem.write_same, Nat.lor_assoc, lor_one_of_odd hflodd]
    exact pteToPa_construct hpal hflt
  · dsimp only
    rw [Mem.write_same, Nat.lor_assoc, lor_one_of_odd hflodd]
    exact pteFlags_construct hflt
  · intro j
    dsimp only
    rw [Mem.write_other_frame _ _ _ _ _ _ (Ne.symm hk2pg),
        Mem.write_other_frame _ _ _ _ _ _ (Ne.symm hk1pg),
        Mem.fill_other _ _ _ _ _ (Ne.symm hk2pg),
        Mem.fill_other _ _ _ _ _ (Ne.symm hk2pg),
        Mem.write_other_frame _ _ _ _ _ _ hpnew,
        Mem.fill_other _ _ _ _ _ (Ne.symm hk1pg),
        Mem.fill_other _ _ _ _ _ (Ne.symm hk1pg),
        Mem.copyPage_same,
        Mem.fill_other _ _ _ _ _ (Ne.symm hppa)]
  · intro hU
    have g0 : (Mem.write (Mem.write (Mem.fill (Mem.fill (Mem.write (Mem.fill (Mem.fill (Mem.copyPage (Mem.fill st.mem page 0) page (pteToPa (st.mem t0s (vpn va 0)))) k1 0) k1 0) new (vpn va 2) (paToPte k1 ||| 1)) k2 0) k2 0) k1 (vpn va 1) (paToPte k2 ||| 1)) k2 (vpn va 0) (paToPte page ||| st.mem t0s (vpn va 0) % 1024 ||| 1)) k2 (vpn va 0) = paToPte page ||| st.mem t0s (vpn va 0) % 1024 ||| 1 := by
      rw [Mem.write_same]
    have hv : (paToPte page ||| (st.mem t0s (vpn va 0) % 1024)) % 2 = 1 := by
      rw [construct_mod_2 hflt]
      omega
    have hu : (paToPte page ||| (st.mem t0s (vpn va 0) % 1024)) / 16 % 2 = 1 := by
      rw [construct_div16_mod_2 hflt]
      omega
    unfold uvm_get_phys_addr
    rw [if_neg hguard]
    rw [hwalkF]
    dsimp only
    rw [g0, Nat.lor_assoc, lor_one_of_odd hflodd]
    rw [if_neg (by simp [hv, hu])]
    rw [pteToPa_construct hpal hflt, hva, Nat.add_zero]

end SC

namespace SC

/-- A concrete duplication scenario: source root `4096` with path
`8192 → 12288` to a user leaf at `va = 4096` backed by frame `16384`
(distinctive contents), a fresh zeroed destination root `20480`, the kernel
free list holding `24576, 28672` for the new interior tables, and the user
free list holding frame `32768`. -/
def c6CopySt : St :=
  { mem := fun t i =>
      if t = 4096 ∧ i = 0 then paToPte 8192 + 1
      else if t = 8192 ∧ i = 0 then paToPte 12288 + 1
      else if t = 12288 ∧ i = 1 then paToPte 16384 + 23
      else if t = 16384 then i + 7
      else 0,
    kern := { lo := 0, hi := 0, allocable := 2, list := [24576, 28672] },
    user := { lo := 0, hi := 0, allocable := 1, list := [32768] } }

end SC

set_option maxRecDepth 8000 in
/-- Witness for C6 at the concrete duplication scenario. -/
theorem c6_duplicate_fidelity_witness :
    ∃ st', SC.uvm_copy_pgtbl SC.c6CopySt 4096 20480 4096 0 [⟨4096, 1⟩]
      = some st' ∧
      st'.mem 28672 (vpn 4096 0) =
        paToPte 32768 ||| SC.c6CopySt.mem 12288 (vpn 4096 0) % 1024 ||| 1 ∧
      pteToPa (st'.mem 28672 (vpn 4096 0)) = 32768 ∧
      pteFlags (st'.mem 28672 (vpn 4096 0)) =
        pteFlags (SC.c6CopySt.mem 12288 (vpn 4096 0)) ∧
      32768 ≠ pteToPa (SC.c6CopySt.mem 12288 (vpn 4096 0)) ∧
      (∀ j, st'.mem 32768 j =
        SC.c6CopySt.mem (pteToPa (SC.c6CopySt.mem 12288 (vpn 4096 0))) j) ∧
      SC.vm_getpte st' 20480 4096 false =
        some (some (28672, vpn 4096 0), st') ∧
      (SC.c6CopySt.mem 12288 (vpn 4096 0) / 16 % 2 = 1 →
        SC.uvm_get_phys_addr st' 20480 4096 = 32768) :=
  SC.c6_duplicate_fidelity SC.c6CopySt 4096 20480 4096 32768 24576 28672
    8192 12288 [] [] (by decide) (by decide) (by decide) (by decide)
    (by decide) (by decide) (by decide) (fun _ => rfl) (by decide)
    (by decide) (by decide) (by decide) (by decide) (by decide) (by decide)
    (by decide) (by decide) (by decide) (by decide) (by decide) (by decide)
    (by decide)
